import Mathlib

/-!
Verification of the blueos-recorder ingestion service (`src/service.rs`).

The development shallowly embeds the data model and operations of the
recorder:

* serde_json `Value`s (as produced by `serde_json5::from_str::<Value>`),
  with numbers modelled by their stored representation: an integer stored
  as `i64`/`u64` (constructor `JNum.int`), or a finite `f64` (constructor
  `JNum.float`, carrying the rational value of the float; serde_json's
  `Number::is_i64` is `false` on the float representation regardless of the
  value).
* `create_schema`, the structural JSON-schema synthesiser;
* `load_cdr_schema`, the external `.msg` schema-file loader;
* the `Service::run` ingestion loop, as a per-message step function
  `stepBody` over an explicit `ServiceState`, emitting a trace of `Event`s
  describing the successful writer operations (container open/finish,
  schema/channel registration, record append, flush) and the warn/error
  log lines.  External effects (UTF-8 decoding of the payload, JSON5
  parsing, the filesystem, the mcap writer's results, and the clock) are
  supplied per message through an `Env` oracle record.

Notes on fidelity:
* `sequence` is a `u32` in the source; the increment is modelled as
  `(n + 1) % 4294967296`, the release-build wrapping semantics.
* info-level log lines are not modelled (only `warn`/`error`, which the
  spec's error-handling contract talks about).
* chrono's `%Y%m%d_%H%M%S` formatting of the current time is the oracle
  `Env.formatTime` applied to the oracle timestamp `Env.nowOpen`.
-/

namespace Recorder

/-- Stored representation of a serde_json `Number`: `int n` covers the
`N::PosInt`/`N::NegInt` representations (so `-2^63 ≤ n < 2^64` for values
the library actually constructs), `float q` covers `N::Float` with the
(rational) value of the finite double. -/
inductive JNum where
  | int (n : Int)
  | float (q : Rat)
deriving DecidableEq

/-- serde_json `Number::is_i64`: true exactly for integer-stored values in
the `i64` range; always false for the float representation. -/
def JNum.is_i64 : JNum → Bool
  | .int n => decide (-(2 ^ 63) ≤ n ∧ n < 2 ^ 63)
  | .float _ => false

/-- serde_json `Value`.  Objects are serde_json `Map`s, modelled as
key-value lists in insertion order (the library keeps unique keys). -/
inductive Value where
  | null
  | bool (b : Bool)
  | num (n : JNum)
  | str (s : String)
  | arr (xs : List Value)
  | obj (kvs : List (String × Value))

/-- serde_json `Value::get(key)`: key lookup on objects, `None` otherwise. -/
def Value.getKey : Value → String → Option Value
  | .obj kvs, k => List.lookup k kvs
  | _, _ => none

/-- serde_json `Value::as_u64`: integer-stored values in the `u64` range. -/
def Value.as_u64 : Value → Option Nat
  | .num (.int n) => if 0 ≤ n ∧ n < 2 ^ 64 then some n.toNat else none
  | _ => none

/-- serde_json `Value::is_object`. -/
def Value.isObject : Value → Bool
  | .obj _ => true
  | _ => false

/-- Lexicographic strict comparison of character lists (Rust's `Ord` for
`String` is byte-lexicographic, which for UTF-8 agrees with the
code-point lexicographic order used here). -/
def listLtChars : List Char → List Char → Bool
  | [], [] => false
  | [], _ :: _ => true
  | _ :: _, [] => false
  | a :: as, b :: bs => if a < b then true else if b < a then false else listLtChars as bs

/-- Rust's `String` ordering, decidably. -/
def strLt (a b : String) : Bool :=
  listLtChars a.data b.data

/-- Insertion into a `BTreeMap<String, _>` viewed as a list sorted by key:
replaces the value if the key is present, otherwise inserts at the sorted
position. -/
def btreeInsert (k : String) (v : α) : List (String × α) → List (String × α)
  | [] => [(k, v)]
  | (k', v') :: rest =>
    if strLt k k' = true then (k, v) :: (k', v') :: rest
    else if k = k' then (k, v) :: rest
    else (k', v') :: btreeInsert k v rest

/-- `BTreeMap<String, _>` built from an iterator (`collect`): sequential
insertion, later occurrences of a key win. -/
def btreeCollect (l : List (String × α)) : List (String × α) :=
  l.foldl (fun acc p => btreeInsert p.1 p.2 acc) []

mutual

/-- `create_schema` from `src/service.rs`: structural JSON-schema synthesis.
Numbers use `is_i64`; arrays sample only the first element; objects collect
the per-key schemas into a `BTreeMap` (sorted by key, later duplicates
winning, as `collect` on the iterator does). -/
def create_schema : Value → Value
  | .null => .obj [("type", .str "null")]
  | .bool _ => .obj [("type", .str "boolean")]
  | .num n => if n.is_i64 then .obj [("type", .str "integer")] else .obj [("type", .str "number")]
  | .str _ => .obj [("type", .str "string")]
  | .arr xs =>
    let items := match xs with
      | [] => Value.obj []
      | x :: _ => create_schema x
    .obj [("type", .str "array"), ("items", items)]
  | .obj kvs => .obj [("type", .str "object"), ("properties", .obj (btreeCollect (csList kvs)))]

/-- Pointwise `create_schema` over an object's entries, mirroring
`map.iter().map(|(k, v)| (k.clone(), create_schema(v)))`. -/
def csList : List (String × Value) → List (String × Value)
  | [] => []
  | (k, v) :: rest => (k, create_schema v) :: csList rest

end

/-- JSON string escaping as serde_json's serializer performs it: only the
quote, the backslash and control characters below 0x20 are escaped (the
short escapes where they exist, `\u00..` with lowercase hex otherwise). -/
def escapeChar (c : Char) : String :=
  if c = '"' then "\\\""
  else if c = '\\' then "\\\\"
  else if c = Char.ofNat 8 then "\\b"
  else if c = Char.ofNat 9 then "\\t"
  else if c = Char.ofNat 10 then "\\n"
  else if c = Char.ofNat 12 then "\\f"
  else if c = Char.ofNat 13 then "\\r"
  else if c.toNat < 32 then
    "\\u00" ++ String.mk [("0123456789abcdef".data.getD (c.toNat / 16) '0'),
                          ("0123456789abcdef".data.getD (c.toNat % 16) '0')]
  else String.mk [c]

/-- Serialized form of a JSON string literal. -/
def escapeString (s : String) : String :=
  "\"" ++ String.join (s.data.map escapeChar) ++ "\""

mutual

/-- Compact serde_json serialization (`Value::to_string()`).  The float
case is unreachable for every value `create_schema` produces (schemas
contain only objects and strings); serde_json's shortest-round-trip float
formatting is not modelled, so the float case is rendered as a fixed
placeholder never relied upon by any theorem. -/
def Value.serialize : Value → String
  | .null => "null"
  | .bool true => "true"
  | .bool false => "false"
  | .num (.int n) => toString n
  | .num (.float _) => "0.0"
  | .str s => escapeString s
  | .arr xs => "[" ++ serializeItems xs ++ "]"
  | .obj kvs => "\x7b" ++ serializeFields kvs ++ "\x7d"

/-- Comma-separated serialization of array items. -/
def serializeItems : List Value → String
  | [] => ""
  | [x] => Value.serialize x
  | x :: y :: rest => Value.serialize x ++ "," ++ serializeItems (y :: rest)

/-- Comma-separated serialization of object fields. -/
def serializeFields : List (String × Value) → String
  | [] => ""
  | [(k, v)] => escapeString k ++ ":" ++ Value.serialize v
  | (k, v) :: p :: rest => escapeString k ++ ":" ++ Value.serialize v ++ "," ++ serializeFields (p :: rest)

end

/-- `Channel` from `src/service.rs`: the writer-assigned channel id
(`u16`) and the per-channel sequence counter (`u32`). -/
structure Channel where
  channel_id : Nat
  sequence : Nat
deriving DecidableEq

/-- `Channel::new`: a freshly registered channel starts its sequence at 0. -/
def Channel.new (channel_id : Nat) : Channel :=
  { channel_id := channel_id, sequence := 0 }

/-- `Mcap` from `src/service.rs`: the optional open writer (its handle
modelled as `Unit`; its registrations and appends are reported in the
event trace) plus the per-topic channel map (`HashMap<String, Channel>`
modelled as an association list). -/
structure McapState where
  writer : Option Unit
  channel : List (String × Channel)
deriving DecidableEq

/-- `HashMap::insert`: replace the entry if the key is present, otherwise
add it. -/
def insertCh (m : List (String × Channel)) (k : String) (c : Channel) : List (String × Channel) :=
  match m with
  | [] => [(k, c)]
  | (k', c') :: rest => if k' = k then (k, c) :: rest else (k', c') :: insertCh rest k c

/-- Events recording the externally visible effects of one loop iteration:
the successful mcap writer operations and the warn/error log lines. -/
inductive Event where
  | openContainer (path : String)
  | finishWriter
  | addSchema (name : String) (encoding : String) (data : String)
  | addChannel (schemaId : Nat) (topic : String) (messageEncoding : String)
  | writeMessage (topic : String) (channelId : Nat) (sequence : Nat)
      (logTime : Nat) (publishTime : Nat) (payload : List Nat)
  | flushWriter
  | logWarn (message : String)
  | logError (message : String)
deriving DecidableEq

/-- `Mcap::finish`: takes the writer if present and finishes it (emitting
`finishWriter`); a no-op on an already-closed writer. -/
def McapState.finish (m : McapState) : McapState × List Event :=
  match m.writer with
  | some _ => ({ m with writer := none }, [.finishWriter])
  | none => (m, [])

/-- The state of `Service::run`: the mcap writer/catalog and the
`last_flush` instant (nanoseconds since the epoch). -/
structure ServiceState where
  mcap : McapState
  lastFlush : Nat
deriving DecidableEq

/-- One bus sample: topic (`key_expr`), payload bytes, and the encoding
descriptor string. -/
structure Sample where
  topic : String
  payload : List Nat
  encoding : String

/-- Per-message oracle for the external effects of one loop iteration. -/
structure Env where
  /-- Result of `payload.try_to_string()` (UTF-8 decoding). -/
  decoded : Option String
  /-- Result of `serde_json5::from_str::<Value>` on the decoded string. -/
  parsed : Option Value
  /-- The filesystem: `std::fs::read_to_string` by path (`Except` carries
  the I/O error's message). -/
  fs : String → Except String String
  /-- Result of `std::env::current_dir()` (`Except` carries the error). -/
  currentDir : Except String String
  /-- Result of `writer.add_schema`: the assigned schema id, or failure. -/
  addSchemaRes : Option Nat
  /-- Result of `writer.add_channel`: the assigned channel id, or failure. -/
  addChannelRes : Option Nat
  /-- Result of `writer.write_to_known_channel`: `none` on success, the
  error's message on failure. -/
  writeErr : Option String
  /-- `SystemTime::now()` (nanoseconds) taken before the append, used for
  both record timestamps and the flush-interval check. -/
  now : Nat
  /-- `SystemTime::now()` (nanoseconds) taken inside `generate_filename`. -/
  nowOpen : Nat
  /-- chrono's `%Y%m%d_%H%M%S` rendering of a timestamp. -/
  formatTime : Nat → String

/-- Consume the literal `p` from the front of `cs`, returning the rest. -/
def consumeLit : List Char → List Char → Option (List Char)
  | [], s => some s
  | _ :: _, [] => none
  | c :: p, d :: s => if d = c then consumeLit p s else none

/-- Drop a (possibly empty) run of decimal digits. -/
def dropDigits : List Char → List Char
  | [] => []
  | c :: s => if c.isDigit then dropDigits s else c :: s

/-- Match `mavlink/\d+/1/HEARTBEAT/base_mode` at the start of `cs` (the
trailing part of the subject may be anything). -/
def matchCore (cs : List Char) : Bool :=
  match consumeLit "mavlink/".data cs with
  | none => false
  | some rest =>
    match rest with
    | [] => false
    | c :: r => c.isDigit && (consumeLit "/1/HEARTBEAT/base_mode".data (dropDigits r)).isSome

/-- `Regex::new(r"mavlink/\d+/1/HEARTBEAT/base_mode").is_match(topic)`:
unanchored search, i.e. a match starting at any position.  (`\d` is ASCII
here; the topics of interest are ASCII.) -/
def baseModeMatch (s : String) : Bool :=
  s.data.tails.any matchCore

/-- Rust `str::split` on a single-character separator, over the character
list: the pieces between separator occurrences, empty pieces included; an
empty subject yields one empty piece. -/
def splitChar (sep : Char) : List Char → List (List Char)
  | [] => [[]]
  | c :: rest =>
    if c = sep then [] :: splitChar sep rest
    else
      match splitChar sep rest with
      | [] => [[c]]
      | piece :: pieces => (c :: piece) :: pieces

/-- Rust `s.split(sep)` collected, for a single-character separator. -/
def splitOnChar (sep : Char) (s : String) : List String :=
  (splitChar sep s.data).map String.mk

/-- `encoding_string.split(";")` followed by two `next()` calls: the first
component, and the second when a `;` is present. -/
def splitEncoding (s : String) : String × Option String :=
  match splitOnChar ';' s with
  | [] => (s, none)
  | [a] => (a, none)
  | a :: b :: _ => (a, some b)

/-- `topic.replace("/", ".")` (single-character pattern, so a plain
character map). -/
def canonicalName (topic : String) : String :=
  String.mk (topic.data.map fun c => if c = '/' then '.' else c)

/-- The path `load_cdr_schema` attempts for a package/name pair. -/
def schemaPathOf (dir pkg name : String) : String :=
  dir ++ "/src/external/zBlueberry/msgs/" ++ pkg ++ "/" ++ name ++ ".msg"

/-- `load_cdr_schema` from `src/service.rs`: split the identifier on `.`,
take the first two components as package and name (later components are
ignored), and read `<cwd>/src/external/zBlueberry/msgs/<pkg>/<name>.msg`.
(The `split` iterator always yields at least one component, so the
"package" error of the source is dead code; it is kept for faithfulness.) -/
def load_cdr_schema (fs : String → Except String String)
    (currentDir : Except String String) (schema : String) : Except String String :=
  match splitOnChar '.' schema with
  | [] => .error ("Failed to get schema package from " ++ schema)
  | [_] => .error ("Failed to get schema name from " ++ schema)
  | pkg :: name :: _ =>
    match currentDir with
    | .error e => .error ("Failed to get current directory: " ++ e)
    | .ok dir =>
      let schema_path := schemaPathOf dir pkg name
      match fs schema_path with
      | .ok content => .ok content
      | .error e => .error ("Failed to read schema: " ++ e ++ ", (" ++ schema_path ++ ")")

/-- `generate_filename`: `recorder_<%Y%m%d_%H%M%S>.mcap` from the current
wall-clock time. -/
def generate_filename (env : Env) : String :=
  "recorder_" ++ env.formatTime env.nowOpen ++ ".mcap"

/-- The armed bit-field of the control message, when the whole inspection
chain succeeds: regex match on the topic, payload decodes, parses, has a
`bits` field readable as `u64`. -/
def ctlBits (env : Env) (topic : String) : Option Nat :=
  if baseModeMatch topic then
    match env.decoded with
    | none => none
    | some _ =>
      match env.parsed with
      | none => none
      | some value => (value.getKey "bits").bind Value.as_u64
  else none

/-- The step observes the safety-armed bit set (bit 7 of `bits`). -/
def armTrigger (env : Env) (topic : String) : Bool :=
  match ctlBits env topic with
  | some b => b &&& 128 != 0
  | none => false

/-- The step observes the safety-armed bit clear. -/
def disarmTrigger (env : Env) (topic : String) : Bool :=
  match ctlBits env topic with
  | some b => b &&& 128 == 0
  | none => false

/-- Lines 162-181 of `src/service.rs`: control-topic inspection.  Bit set
while no writer is open opens a fresh container (fresh catalog) at a
timestamp-derived path; bit clear finishes the writer (a no-op when
already closed); every failure of the inspection chain leaves the state
untouched. -/
def controlPhase (recorderPath : String) (env : Env) (topic : String)
    (s : ServiceState) : ServiceState × List Event :=
  if baseModeMatch topic then
    match env.decoded with
    | none => (s, [])
    | some _ =>
      match env.parsed with
      | none => (s, [])
      | some value =>
        match (value.getKey "bits").bind Value.as_u64 with
        | none => (s, [])
        | some b =>
          if b &&& 128 != 0 then
            match s.mcap.writer with
            | none =>
              let path := recorderPath ++ "/" ++ generate_filename env
              ({ s with mcap := { writer := some (), channel := [] } }, [.openContainer path])
            | some _ => (s, [])
          else
            let fe := s.mcap.finish
            ({ s with mcap := fe.1 }, fe.2)
  else (s, [])

/-- Lines 194-226 of `src/service.rs`: resolve the encoding descriptor on
a cache miss into `(schema encoding, schema description, message
encoding)`, or the drop events (`continue`) on failure.  Note that the
non-object JSON case is dropped silently — the source has no log call
there. -/
def resolveEncoding (env : Env) (sample : Sample) : (String × String × String) ⊕ List Event :=
  match splitEncoding sample.encoding with
  | ("application/cdr", some schema) =>
    match load_cdr_schema env.fs env.currentDir schema with
    | .ok sch => .inl ("ros2msg", sch, "cdr")
    | .error e => .inr [.logError (sample.topic ++ ": Failed to load schema: " ++ e)]
  | ("application/json", _) =>
    match env.decoded with
    | none => .inr [.logWarn (sample.topic ++ ": Failed to decode payload as UTF-8 string")]
    | some string =>
      match env.parsed with
      | none => .inr [.logWarn (sample.topic ++ ": Failed to parse payload as JSON5: " ++ string)]
      | some value =>
        if value.isObject then .inl ("jsonschema", (create_schema value).serialize, "json")
        else .inr []
  | _ => .inr [.logWarn (sample.topic ++ ": Received unknown encoding: \"" ++ sample.encoding ++ "\"")]

/-- Lines 250-275 of `src/service.rs`: append the record to the (now
necessarily present) channel, increment its `u32` sequence only on
success, then flush if more than 30 seconds have elapsed.  (The `none`
lookup branch mirrors the source's `expect`, which the preceding block
makes unreachable.) -/
def appendPhase (env : Env) (sample : Sample) (s : ServiceState) (ev : List Event) :
    ServiceState × List Event :=
  match List.lookup sample.topic s.mcap.channel with
  | none => (s, ev)
  | some channel =>
    match env.writeErr with
    | some e => (s, ev ++ [.logError (sample.topic ++ ": Failed to write message: " ++ e)])
    | none =>
      let s' := { s with mcap := { s.mcap with
        channel := insertCh s.mcap.channel sample.topic
          { channel with sequence := (channel.sequence + 1) % 4294967296 } } }
      let ev := ev ++ [.writeMessage sample.topic channel.channel_id channel.sequence
        env.now env.now sample.payload]
      if env.now - s.lastFlush > 30000000000 then
        ({ s' with lastFlush := env.now }, ev ++ [.flushWriter])
      else (s', ev)

/-- Lines 193-275 of `src/service.rs`: with a writer open, register the
topic's channel if unseen (schema then channel; each failure drops the
message), then append. -/
def processPhase (env : Env) (sample : Sample) (s : ServiceState) : ServiceState × List Event :=
  match List.lookup sample.topic s.mcap.channel with
  | some _ => appendPhase env sample s []
  | none =>
    match resolveEncoding env sample with
    | .inr ev => (s, ev)
    | .inl (encoding, schema_description, msg_encoding) =>
      let name := (splitEncoding sample.encoding).2.getD (canonicalName sample.topic)
      match env.addSchemaRes with
      | none => (s, [.logWarn (sample.topic ++ ": Failed to add schema: \"" ++ sample.encoding ++ "\"")])
      | some schema_id =>
        match env.addChannelRes with
        | none => (s, [.addSchema name encoding schema_description,
                       .logWarn (sample.topic ++ ": Failed to add channel: \"" ++ sample.encoding ++ "\"")])
        | some channel_id =>
          let s' := { s with mcap := { s.mcap with
            channel := insertCh s.mcap.channel sample.topic (Channel.new channel_id) } }
          appendPhase env sample s'
            [.addSchema name encoding schema_description,
             .addChannel schema_id sample.topic msg_encoding]

/-- One iteration of the `Service::run` loop: control inspection, the
`continue` when no writer is open, then channel resolution and append. -/
def stepBody (recorderPath : String) (env : Env) (sample : Sample)
    (s : ServiceState) : ServiceState × List Event :=
  let c := controlPhase recorderPath env sample.topic s
  match c.1.mcap.writer with
  | none => c
  | some _ =>
    let p := processPhase env sample c.1
    (p.1, c.2 ++ p.2)

/-- The loop over a finite prefix of the bus stream. -/
def runService (recorderPath : String) : List (Env × Sample) → ServiceState → ServiceState × List Event
  | [], s => (s, [])
  | (env, m) :: rest, s =>
    let r1 := stepBody recorderPath env m s
    let r2 := runService recorderPath rest r1.1
    (r2.1, r1.2 ++ r2.2)

/-- The state at the top of `Service::run`: no writer, empty catalog
(`Service::new`), `last_flush` just taken. -/
def startState (lastFlush : Nat) : ServiceState :=
  { mcap := { writer := none, channel := [] }, lastFlush := lastFlush }

/-- The event opens a container. -/
def Event.isOpen : Event → Bool
  | .openContainer _ => true
  | _ => false

/-- The event finalizes the writer. -/
def Event.isFinish : Event → Bool
  | .finishWriter => true
  | _ => false

/-- The event registers a schema. -/
def Event.isAddSchemaEv : Event → Bool
  | .addSchema _ _ _ => true
  | _ => false

/-- The event registers a channel for topic `t`. -/
def Event.isAddChannelFor (t : String) : Event → Bool
  | .addChannel _ t' _ => t' == t
  | _ => false

/-- The event appends a record on topic `t`'s channel. -/
def Event.isWriteFor (t : String) : Event → Bool
  | .writeMessage t' _ _ _ _ _ => t' == t
  | _ => false

/-- The sequence number of an append on topic `t`'s channel. -/
def Event.writeSeqFor (t : String) : Event → Option Nat
  | .writeMessage t' _ q _ _ _ => if t' == t then some q else none
  | _ => none

/-- The event is a warn/error log line. -/
def Event.isLog : Event → Bool
  | .logWarn _ => true
  | .logError _ => true
  | _ => false

theorem lookup_insertCh_self (m : List (String × Channel)) (k : String) (c : Channel) :
    List.lookup k (insertCh m k c) = some c := by
  induction m with
  | nil => simp [insertCh, List.lookup]
  | cons p rest ih =>
    obtain ⟨k', c'⟩ := p
    by_cases h : k' = k
    · subst h
      simp [insertCh, List.lookup]
    · have hbeq : (k == k') = false := beq_eq_false_iff_ne.mpr (Ne.symm h)
      simp [insertCh, h, List.lookup, hbeq, ih]

theorem lookup_insertCh_ne (m : List (String × Channel)) (k k' : String) (c : Channel)
    (h : k' ≠ k) : List.lookup k' (insertCh m k c) = List.lookup k' m := by
  have hbeq : (k' == k) = false := beq_eq_false_iff_ne.mpr h
  induction m with
  | nil => simp [insertCh, List.lookup, hbeq]
  | cons p rest ih =>
    obtain ⟨k'', c''⟩ := p
    by_cases h2 : k'' = k
    · subst h2
      simp [insertCh, List.lookup, hbeq]
    · simp [insertCh, h2, List.lookup, ih]

theorem insertCh_insertCh (m : List (String × Channel)) (k : String) (c c' : Channel) :
    insertCh (insertCh m k c) k c' = insertCh m k c' := by
  induction m with
  | nil => simp [insertCh]
  | cons p rest ih =>
    obtain ⟨k'', c''⟩ := p
    by_cases h : k'' = k
    · subst h
      simp [insertCh]
    · simp [insertCh, h, ih]

/-- Case analysis of the control phase: either the inspection chain does
not fire (no trigger, state untouched), or one of the four
trigger-state combinations occurs. -/
theorem controlPhase_spec (r : String) (env : Env) (t : String) (s : ServiceState) :
    (controlPhase r env t s = (s, []) ∧ armTrigger env t = false ∧ disarmTrigger env t = false)
    ∨ (armTrigger env t = true ∧ s.mcap.writer = none ∧
        controlPhase r env t s =
          ({ s with mcap := { writer := some (), channel := [] } },
           [.openContainer (r ++ "/" ++ generate_filename env)]))
    ∨ (armTrigger env t = true ∧ s.mcap.writer = some () ∧ controlPhase r env t s = (s, []))
    ∨ (disarmTrigger env t = true ∧ s.mcap.writer = some () ∧
        controlPhase r env t s = ({ s with mcap := { s.mcap with writer := none } }, [.finishWriter]))
    ∨ (disarmTrigger env t = true ∧ s.mcap.writer = none ∧ controlPhase r env t s = (s, [])) := by
  unfold controlPhase armTrigger disarmTrigger ctlBits
  by_cases hb : baseModeMatch t
  · simp only [hb, if_true]
    rcases hd : env.decoded with _ | str
    · simp
    · rcases hp : env.parsed with _ | v
      · simp
      · rcases hbits : (v.getKey "bits").bind Value.as_u64 with _ | b
        · simp [hbits]
        · simp only [hbits]
          by_cases hz : b &&& 128 = 0
          · rcases hw : s.mcap.writer with _ | u
            · simp [hz, McapState.finish, hw, bne]
            · cases u
              simp [hz, McapState.finish, hw, bne]
          · rcases hw : s.mcap.writer with _ | u
            · simp [hz, hw, bne, beq_iff_eq]
            · cases u
              simp [hz, hw, bne, beq_iff_eq]
  · simp [hb]

/-- When encoding resolution drops the message, the drop is silent or a
single warn/error line. -/
theorem resolveEncoding_inr (env : Env) (m : Sample) (ev : List Event)
    (h : resolveEncoding env m = .inr ev) :
    ev = [] ∨ (∃ w, ev = [Event.logWarn w]) ∨ (∃ w, ev = [Event.logError w]) := by
  unfold resolveEncoding at h
  split at h
  · split at h
    · simp at h
    · simp only [Sum.inr.injEq] at h
      subst h
      simp
  · split at h
    · simp only [Sum.inr.injEq] at h
      subst h
      simp
    · split at h
      · simp only [Sum.inr.injEq] at h
        subst h
        simp
      · split at h
        · simp at h
        · simp only [Sum.inr.injEq] at h
          subst h
          simp
  · simp only [Sum.inr.injEq] at h
    subst h
    simp

/-- Case analysis of the processing phase (writer open): the message is
dropped with the state untouched; or the schema is registered but the
channel registration fails; or a cache hit appends; or a full
miss-register-append succeeds; or the registration succeeds and the
append fails. -/
theorem processPhase_spec (env : Env) (m : Sample) (s : ServiceState) :
    ((processPhase env m s).1 = s ∧
      ((processPhase env m s).2 = [] ∨ (∃ w, (processPhase env m s).2 = [Event.logWarn w]) ∨
       (∃ w, (processPhase env m s).2 = [Event.logError w])))
    ∨ (List.lookup m.topic s.mcap.channel = none ∧ ∃ enc d w,
        processPhase env m s = (s,
          [Event.addSchema ((splitEncoding m.encoding).2.getD (canonicalName m.topic)) enc d,
           Event.logWarn w]))
    ∨ (∃ ch, ∃ fl : Bool, List.lookup m.topic s.mcap.channel = some ch ∧
        processPhase env m s =
          ({ s with
              mcap := { s.mcap with channel := insertCh s.mcap.channel m.topic ({ ch with sequence := (ch.sequence + 1) % 4294967296 }) },
              lastFlush := cond fl env.now s.lastFlush },
           Event.writeMessage m.topic ch.channel_id ch.sequence env.now env.now m.payload
             :: cond fl [Event.flushWriter] []))
    ∨ (List.lookup m.topic s.mcap.channel = none ∧ ∃ enc d sid cid menc, ∃ fl : Bool,
        processPhase env m s =
          ({ s with
              mcap := { s.mcap with channel := insertCh s.mcap.channel m.topic ({ channel_id := cid, sequence := 1 % 4294967296 }) },
              lastFlush := cond fl env.now s.lastFlush },
           Event.addSchema ((splitEncoding m.encoding).2.getD (canonicalName m.topic)) enc d
             :: Event.addChannel sid m.topic menc ::
             Event.writeMessage m.topic cid 0 env.now env.now m.payload
             :: cond fl [Event.flushWriter] []))
    ∨ (List.lookup m.topic s.mcap.channel = none ∧ ∃ enc d sid cid menc w,
        processPhase env m s =
          ({ s with mcap := { s.mcap with
              channel := insertCh s.mcap.channel m.topic (Channel.new cid) } },
           [Event.addSchema ((splitEncoding m.encoding).2.getD (canonicalName m.topic)) enc d,
            Event.addChannel sid m.topic menc, Event.logError w])) := by
  unfold processPhase
  cases hl : List.lookup m.topic s.mcap.channel with
  | some ch =>
    unfold appendPhase
    rw [hl]
    dsimp only
    cases hw : env.writeErr with
    | some e => simp
    | none =>
      dsimp only
      by_cases hf : env.now - s.lastFlush > 30000000000
      · right; right; left
        refine ⟨ch, true, rfl, ?_⟩
        simp [hf]
      · right; right; left
        refine ⟨ch, false, rfl, ?_⟩
        simp [hf]
  | none =>
    cases hr : resolveEncoding env m with
    | inr ev =>
      rcases resolveEncoding_inr env m ev hr with h | ⟨w, h⟩ | ⟨w, h⟩ <;> subst h <;> simp
    | inl tags =>
      obtain ⟨enc, d, menc⟩ := tags
      dsimp only
      cases ha : env.addSchemaRes with
      | none => simp
      | some sid =>
        dsimp only
        cases hc : env.addChannelRes with
        | none =>
          refine Or.inr (Or.inl ⟨rfl, ?_⟩)
          exact ⟨_, _, _, rfl⟩
        | some cid =>
          dsimp only
          unfold appendPhase
          rw [lookup_insertCh_self]
          dsimp only
          cases hw : env.writeErr with
          | some e =>
            refine Or.inr (Or.inr (Or.inr (Or.inr ⟨rfl, ?_⟩)))
            exact ⟨_, _, _, _, _, _, rfl⟩
          | none =>
            dsimp only
            by_cases hf : env.now - s.lastFlush > 30000000000
            · refine Or.inr (Or.inr (Or.inr (Or.inl ⟨rfl, ?_⟩)))
              refine ⟨enc, d, sid, cid, menc, true, ?_⟩
              simp [hf, insertCh_insertCh, Channel.new]
            · refine Or.inr (Or.inr (Or.inr (Or.inl ⟨rfl, ?_⟩)))
              refine ⟨enc, d, sid, cid, menc, false, ?_⟩
              simp [hf, insertCh_insertCh, Channel.new]

/-- Case analysis of one loop iteration: either no writer is open after
the control phase (the iteration is the control phase alone), or the
iteration is the control phase followed by the processing phase. -/
theorem stepBody_cases (r : String) (env : Env) (m : Sample) (s : ServiceState) :
    (stepBody r env m s = controlPhase r env m.topic s ∧
      (controlPhase r env m.topic s).1.mcap.writer = none)
    ∨ ((controlPhase r env m.topic s).1.mcap.writer = some () ∧
      stepBody r env m s =
        ((processPhase env m (controlPhase r env m.topic s).1).1,
         (controlPhase r env m.topic s).2 ++ (processPhase env m (controlPhase r env m.topic s).1).2)) := by
  unfold stepBody
  dsimp only
  cases hw : (controlPhase r env m.topic s).1.mcap.writer with
  | none => exact Or.inl ⟨rfl, rfl⟩
  | some u => cases u; exact Or.inr ⟨rfl, rfl⟩

theorem writeSeqFor_eq_none (t : String) (e : Event) :
    e.writeSeqFor t = none ↔ e.isWriteFor t = false := by
  cases e <;> simp [Event.writeSeqFor, Event.isWriteFor]

/-- The processing phase never opens nor finalizes a container. -/
theorem processPhase_no_open_finish (env : Env) (m : Sample) (s : ServiceState) :
    ∀ e ∈ (processPhase env m s).2, e.isOpen = false ∧ e.isFinish = false := by
  rcases processPhase_spec env m s with ⟨h1, h2⟩ | ⟨hl, enc, d, w, h⟩ |
    ⟨ch, fl, hl, h⟩ | ⟨hl, enc, d, sid, cid, menc, fl, h⟩ |
    ⟨hl, enc, d, sid, cid, menc, w, h⟩
  · rcases h2 with h2 | ⟨w, h2⟩ | ⟨w, h2⟩ <;> rw [h2] <;>
      simp [List.forall_mem_cons, Event.isOpen, Event.isFinish]
  · rw [h]
    simp [List.forall_mem_cons, Event.isOpen, Event.isFinish]
  · rw [h]
    cases fl <;> simp [List.forall_mem_cons, Event.isOpen, Event.isFinish]
  · rw [h]
    cases fl <;> simp [List.forall_mem_cons, Event.isOpen, Event.isFinish]
  · rw [h]
    simp [List.forall_mem_cons, Event.isOpen, Event.isFinish]

/-- The processing phase never changes whether the writer is open. -/
theorem processPhase_writer (env : Env) (m : Sample) (s : ServiceState) :
    (processPhase env m s).1.mcap.writer = s.mcap.writer := by
  rcases processPhase_spec env m s with ⟨h1, h2⟩ | ⟨hl, enc, d, w, h⟩ |
    ⟨ch, fl, hl, h⟩ | ⟨hl, enc, d, sid, cid, menc, fl, h⟩ |
    ⟨hl, enc, d, sid, cid, menc, w, h⟩ <;> (first | rw [h1] | rw [h])

/-- Scan checking that, for topic `t`, no two channel registrations occur
without a container-open between them.  The flag records whether `t` has
been registered since the last open; `none` signals a violation. -/
def c1Scan (t : String) : List Event → Bool → Option Bool
  | [], f => some f
  | e :: r, f =>
    if e.isOpen then c1Scan t r false
    else if e.isAddChannelFor t then (if f then none else c1Scan t r true)
    else c1Scan t r f

/-- Scan checking that, for topic `t`, the appended sequence numbers
restart at 0 on each container-open and then increase one by one (modulo
the `u32` wrap).  Carries the number of appends since the last open. -/
def c2Scan (t : String) : List Event → Nat → Option Nat
  | [], n => some n
  | e :: r, n =>
    if e.isOpen then c2Scan t r 0
    else
      match e.writeSeqFor t with
      | some q => if q = n % 4294967296 then c2Scan t r (n + 1) else none
      | none => c2Scan t r n

theorem c1Scan_append (t : String) (a b : List Event) (f : Bool) :
    c1Scan t (a ++ b) f = (c1Scan t a f).bind (c1Scan t b) := by
  induction a generalizing f with
  | nil => simp [c1Scan]
  | cons e r ih =>
    by_cases ho : e.isOpen
    · simp [c1Scan, ho, ih]
    · by_cases ha : e.isAddChannelFor t
      · cases f
        · simp [c1Scan, ho, ha, ih]
        · simp [c1Scan, ho, ha]
      · simp [c1Scan, ho, ha, ih]

theorem c2Scan_append (t : String) (a b : List Event) (n : Nat) :
    c2Scan t (a ++ b) n = (c2Scan t a n).bind (c2Scan t b) := by
  induction a generalizing n with
  | nil => simp [c2Scan]
  | cons e r ih =>
    by_cases ho : e.isOpen
    · simp [c2Scan, ho, ih]
    · cases hq : e.writeSeqFor t with
      | none => simp [c2Scan, ho, hq, ih]
      | some q =>
        simp only [List.cons_append, c2Scan, ho, Bool.false_eq_true, if_false, hq]
        by_cases hqn : q = n % 4294967296
        · simp [hqn, ih]
        · simp [hqn]

theorem c1Scan_none_of_one (t : String) (mid : List Event)
    (h : ∀ e ∈ mid, e.isOpen = false)
    (hc : 1 ≤ mid.countP (Event.isAddChannelFor t)) : c1Scan t mid true = none := by
  induction mid with
  | nil => simp at hc
  | cons e r ih =>
    have ho : e.isOpen = false := h e (List.mem_cons_self e r)
    by_cases ha : e.isAddChannelFor t
    · simp [c1Scan, ho, ha]
    · have hc' : 1 ≤ r.countP (Event.isAddChannelFor t) := by
        simpa [List.countP_cons, ha] using hc
      simp [c1Scan, ho, ha, ih (fun e he => h e (List.mem_cons_of_mem _ he)) hc']

theorem c1Scan_none_of_two (t : String) (mid : List Event)
    (h : ∀ e ∈ mid, e.isOpen = false)
    (hc : 2 ≤ mid.countP (Event.isAddChannelFor t)) (f : Bool) : c1Scan t mid f = none := by
  induction mid generalizing f with
  | nil => simp at hc
  | cons e r ih =>
    have ho : e.isOpen = false := h e (List.mem_cons_self e r)
    have hr : ∀ e ∈ r, e.isOpen = false := fun e he => h e (List.mem_cons_of_mem _ he)
    by_cases ha : e.isAddChannelFor t
    · have hc' : 1 ≤ r.countP (Event.isAddChannelFor t) := by
        rw [List.countP_cons, if_pos ha] at hc
        omega
      cases f
      · simp [c1Scan, ho, ha, c1Scan_none_of_one t r hr hc']
      · simp [c1Scan, ho, ha]
    · have hc' : 2 ≤ r.countP (Event.isAddChannelFor t) := by
        simpa [List.countP_cons, ha] using hc
      simp [c1Scan, ho, ha, ih hr hc']

theorem c2Scan_seqs (t : String) (mid : List Event)
    (h : ∀ e ∈ mid, e.isOpen = false) :
    ∀ n m, c2Scan t mid n = some m →
      n ≤ m ∧ mid.countP (Event.isWriteFor t) = m - n ∧
        mid.filterMap (Event.writeSeqFor t) = (List.range' n (m - n)).map (· % 4294967296) := by
  induction mid with
  | nil =>
    intro n m hm
    simp [c2Scan] at hm
    subst hm
    simp
  | cons e r ih =>
    intro n m hm
    have ho : e.isOpen = false := h e (List.mem_cons_self e r)
    have hr : ∀ e ∈ r, e.isOpen = false := fun e he => h e (List.mem_cons_of_mem _ he)
    cases hq : e.writeSeqFor t with
    | none =>
      rw [c2Scan, if_neg (by simp [ho]), hq] at hm
      obtain ⟨h1, h2, h3⟩ := ih hr n m hm
      have hw : e.isWriteFor t = false := (writeSeqFor_eq_none t e).mp hq
      refine ⟨h1, ?_, ?_⟩
      · simp [List.countP_cons, hw, h2]
      · simp [List.filterMap_cons, hq, h3]
    | some q =>
      rw [c2Scan, if_neg (by simp [ho]), hq] at hm
      dsimp only at hm
      by_cases hqn : q = n % 4294967296
      · rw [if_pos hqn] at hm
        obtain ⟨h1, h2, h3⟩ := ih hr (n + 1) m hm
        have hw : e.isWriteFor t = true := by
          by_contra hw
          have := (writeSeqFor_eq_none t e).mpr (by simpa using hw)
          simp [this] at hq
        refine ⟨by omega, ?_, ?_⟩
        · simp [List.countP_cons, hw, h2]
          omega
        · have hmn : m - n = (m - (n + 1)) + 1 := by omega
          rw [List.filterMap_cons, hq, h3, hmn, List.range'_succ, List.map_cons, hqn]
      · rw [if_neg hqn] at hm
        exact absurd hm (by simp)

/-- Invariant tying the c1-scan flag to the state: when the flag says `t`
was registered since the last open, `t` is in the catalog. -/
def regInv (t : String) (s : ServiceState) (f : Bool) : Prop :=
  f = true → (List.lookup t s.mcap.channel).isSome = true

theorem c1_process (t : String) (env : Env) (m : Sample) (s : ServiceState) (f : Bool)
    (hI : regInv t s f) :
    ∃ f', c1Scan t (processPhase env m s).2 f = some f' ∧
      regInv t (processPhase env m s).1 f' := by
  rcases processPhase_spec env m s with ⟨h1, h2⟩ | ⟨hl, enc, d, w, h⟩ |
    ⟨ch, fl, hl, h⟩ | ⟨hl, enc, d, sid, cid, menc, fl, h⟩ |
    ⟨hl, enc, d, sid, cid, menc, w, h⟩
  · refine ⟨f, ?_, ?_⟩
    · rcases h2 with h2 | ⟨w, h2⟩ | ⟨w, h2⟩ <;> rw [h2] <;>
        simp [c1Scan, Event.isOpen, Event.isAddChannelFor]
    · rw [h1]
      exact hI
  · rw [h]
    exact ⟨f, by simp [c1Scan, Event.isOpen, Event.isAddChannelFor], hI⟩
  · rw [h]
    refine ⟨f, ?_, ?_⟩
    · cases fl <;> simp [c1Scan, Event.isOpen, Event.isAddChannelFor, Event.writeSeqFor]
    · intro hf
      have hsome := hI hf
      by_cases ht : t = m.topic
      · subst ht
        simp [lookup_insertCh_self]
      · simpa [lookup_insertCh_ne _ _ _ _ ht] using hsome
  · rw [h]
    by_cases ht : t = m.topic
    · subst ht
      have hf : f = false := by
        cases hfv : f
        · rfl
        · exact absurd (hI hfv) (by simp [hl])
      subst hf
      refine ⟨true, ?_, ?_⟩
      · cases fl <;> simp [c1Scan, Event.isOpen, Event.isAddChannelFor]
      · intro _
        simp [lookup_insertCh_self]
    · have hne : (m.topic == t) = false := beq_eq_false_iff_ne.mpr (fun hh => ht hh.symm)
      refine ⟨f, ?_, ?_⟩
      · cases fl <;> simp [c1Scan, Event.isOpen, Event.isAddChannelFor, hne]
      · intro hf
        have hsome := hI hf
        simpa [lookup_insertCh_ne _ _ _ _ ht] using hsome
  · rw [h]
    by_cases ht : t = m.topic
    · subst ht
      have hf : f = false := by
        cases hfv : f
        · rfl
        · exact absurd (hI hfv) (by simp [hl])
      subst hf
      refine ⟨true, ?_, ?_⟩
      · simp [c1Scan, Event.isOpen, Event.isAddChannelFor]
      · intro _
        simp [lookup_insertCh_self]
    · have hne : (m.topic == t) = false := beq_eq_false_iff_ne.mpr (fun hh => ht hh.symm)
      refine ⟨f, ?_, ?_⟩
      · simp [c1Scan, Event.isOpen, Event.isAddChannelFor, hne]
      · intro hf
        have hsome := hI hf
        simpa [lookup_insertCh_ne _ _ _ _ ht] using hsome

theorem c1_step (t r : String) (env : Env) (m : Sample) (s : ServiceState) (f : Bool)
    (hI : regInv t s f) :
    ∃ f', c1Scan t (stepBody r env m s).2 f = some f' ∧
      regInv t (stepBody r env m s).1 f' := by
  rcases stepBody_cases r env m s with ⟨hs, hw⟩ | ⟨hw, hs⟩
  · rcases controlPhase_spec r env m.topic s with ⟨hc, _, _⟩ | ⟨_, hwn, hc⟩ |
      ⟨_, hws, hc⟩ | ⟨_, hws, hc⟩ | ⟨_, hwn, hc⟩
    · rw [hs, hc]
      exact ⟨f, by simp [c1Scan], hI⟩
    · rw [hc] at hw
      simp at hw
    · rw [hc] at hw
      rw [hws] at hw
      simp at hw
    · rw [hs, hc]
      refine ⟨f, by simp [c1Scan, Event.isOpen, Event.isAddChannelFor], ?_⟩
      intro hf
      exact hI hf
    · rw [hs, hc]
      exact ⟨f, by simp [c1Scan], hI⟩
  · rw [hs]
    rcases controlPhase_spec r env m.topic s with ⟨hc, _, _⟩ | ⟨_, hwn, hc⟩ |
      ⟨_, hws, hc⟩ | ⟨_, hws, hc⟩ | ⟨_, hwn, hc⟩
    · rw [hc]
      obtain ⟨f', h1, h2⟩ := c1_process t env m s f hI
      exact ⟨f', by simpa [c1Scan_append] using h1, h2⟩
    · rw [hc]
      obtain ⟨f', h1, h2⟩ := c1_process t env m
        ({ s with mcap := { writer := some (), channel := [] } }) false
        (by intro h; simp at h)
      refine ⟨f', ?_, h2⟩
      rw [c1Scan_append]
      simpa [c1Scan, Event.isOpen] using h1
    · rw [hc]
      obtain ⟨f', h1, h2⟩ := c1_process t env m s f hI
      exact ⟨f', by simpa [c1Scan_append] using h1, h2⟩
    · rw [hc] at hw
      simp at hw
    · rw [hc] at hw
      simp [hwn] at hw

theorem c1_run (t r : String) (steps : List (Env × Sample)) :
    ∀ s f, regInv t s f →
      ∃ f', c1Scan t (runService r steps s).2 f = some f' ∧
        regInv t (runService r steps s).1 f' := by
  induction steps with
  | nil =>
    intro s f hI
    exact ⟨f, by simp [runService, c1Scan], hI⟩
  | cons p rest ih =>
    intro s f hI
    obtain ⟨env, m⟩ := p
    obtain ⟨f1, h1, hI1⟩ := c1_step t r env m s f hI
    obtain ⟨f2, h2, hI2⟩ := ih _ f1 hI1
    refine ⟨f2, ?_, ?_⟩
    · simp only [runService]
      rw [c1Scan_append, h1]
      simpa using h2
    · simpa [runService] using hI2

theorem mod_add_one (n : Nat) : (n % 4294967296 + 1) % 4294967296 = (n + 1) % 4294967296 := by
  conv_rhs => rw [Nat.add_mod]

/-- Invariant tying the c2-scan count to the state: `t`'s cached sequence
counter is the count of appends on `t` since the last open, modulo the
`u32` wrap; an unregistered topic has no appends since the last open. -/
def seqInv (t : String) (s : ServiceState) (n : Nat) : Prop :=
  match List.lookup t s.mcap.channel with
  | some ch => ch.sequence = n % 4294967296
  | none => n = 0

theorem c2_process (t : String) (env : Env) (m : Sample) (s : ServiceState) (n : Nat)
    (hI : seqInv t s n) :
    ∃ n', c2Scan t (processPhase env m s).2 n = some n' ∧
      seqInv t (processPhase env m s).1 n' := by
  rcases processPhase_spec env m s with ⟨h1, h2⟩ | ⟨hl, enc, d, w, h⟩ |
    ⟨ch, fl, hl, h⟩ | ⟨hl, enc, d, sid, cid, menc, fl, h⟩ |
    ⟨hl, enc, d, sid, cid, menc, w, h⟩
  · refine ⟨n, ?_, ?_⟩
    · rcases h2 with h2 | ⟨w, h2⟩ | ⟨w, h2⟩ <;> rw [h2] <;>
        simp [c2Scan, Event.isOpen, Event.writeSeqFor]
    · rw [h1]
      exact hI
  · rw [h]
    exact ⟨n, by simp [c2Scan, Event.isOpen, Event.writeSeqFor], hI⟩
  · rw [h]
    by_cases ht : t = m.topic
    · subst ht
      have hch : ch.sequence = n % 4294967296 := by
        simp only [seqInv, hl] at hI
        exact hI
      refine ⟨n + 1, ?_, ?_⟩
      · cases fl <;> simp [c2Scan, Event.isOpen, Event.writeSeqFor, hch]
      · simp only [seqInv]
        rw [lookup_insertCh_self]
        simp only [hch]
        exact mod_add_one n
    · have hne : (m.topic == t) = false := beq_eq_false_iff_ne.mpr (fun hh => ht hh.symm)
      refine ⟨n, ?_, ?_⟩
      · cases fl <;> simp [c2Scan, Event.isOpen, Event.writeSeqFor, hne]
      · simp only [seqInv]
        rw [lookup_insertCh_ne _ _ _ _ ht]
        exact hI
  · rw [h]
    by_cases ht : t = m.topic
    · subst ht
      have hn0 : n = 0 := by
        simp only [seqInv, hl] at hI
        exact hI
      subst hn0
      refine ⟨1, ?_, ?_⟩
      · cases fl <;> simp [c2Scan, Event.isOpen, Event.writeSeqFor]
      · simp only [seqInv]
        rw [lookup_insertCh_self]
    · have hne : (m.topic == t) = false := beq_eq_false_iff_ne.mpr (fun hh => ht hh.symm)
      refine ⟨n, ?_, ?_⟩
      · cases fl <;> simp [c2Scan, Event.isOpen, Event.writeSeqFor, hne]
      · simp only [seqInv]
        rw [lookup_insertCh_ne _ _ _ _ ht]
        exact hI
  · rw [h]
    by_cases ht : t = m.topic
    · subst ht
      have hn0 : n = 0 := by
        simp only [seqInv, hl] at hI
        exact hI
      subst hn0
      refine ⟨0, ?_, ?_⟩
      · simp [c2Scan, Event.isOpen, Event.writeSeqFor]
      · simp only [seqInv]
        rw [lookup_insertCh_self]
        simp [Channel.new]
    · have hne : (m.topic == t) = false := beq_eq_false_iff_ne.mpr (fun hh => ht hh.symm)
      refine ⟨n, ?_, ?_⟩
      · simp [c2Scan, Event.isOpen, Event.writeSeqFor, hne]
      · simp only [seqInv]
        rw [lookup_insertCh_ne _ _ _ _ ht]
        exact hI

theorem c2_step (t r : String) (env : Env) (m : Sample) (s : ServiceState) (n : Nat)
    (hI : seqInv t s n) :
    ∃ n', c2Scan t (stepBody r env m s).2 n = some n' ∧
      seqInv t (stepBody r env m s).1 n' := by
  rcases stepBody_cases r env m s with ⟨hs, hw⟩ | ⟨hw, hs⟩
  · rcases controlPhase_spec r env m.topic s with ⟨hc, _, _⟩ | ⟨_, hwn, hc⟩ |
      ⟨_, hws, hc⟩ | ⟨_, hws, hc⟩ | ⟨_, hwn, hc⟩
    · rw [hs, hc]
      exact ⟨n, by simp [c2Scan], hI⟩
    · rw [hc] at hw
      simp at hw
    · rw [hc] at hw
      rw [hws] at hw
      simp at hw
    · rw [hs, hc]
      refine ⟨n, by simp [c2Scan, Event.isOpen, Event.writeSeqFor], ?_⟩
      exact hI
    · rw [hs, hc]
      exact ⟨n, by simp [c2Scan], hI⟩
  · rw [hs]
    rcases controlPhase_spec r env m.topic s with ⟨hc, _, _⟩ | ⟨_, hwn, hc⟩ |
      ⟨_, hws, hc⟩ | ⟨_, hws, hc⟩ | ⟨_, hwn, hc⟩
    · rw [hc]
      obtain ⟨n', h1, h2⟩ := c2_process t env m s n hI
      exact ⟨n', by simpa [c2Scan_append] using h1, h2⟩
    · rw [hc]
      obtain ⟨n', h1, h2⟩ := c2_process t env m
        ({ s with mcap := { writer := some (), channel := [] } }) 0
        (by simp [seqInv])
      refine ⟨n', ?_, h2⟩
      rw [c2Scan_append]
      simpa [c2Scan, Event.isOpen] using h1
    · rw [hc]
      obtain ⟨n', h1, h2⟩ := c2_process t env m s n hI
      exact ⟨n', by simpa [c2Scan_append] using h1, h2⟩
    · rw [hc] at hw
      simp at hw
    · rw [hc] at hw
      simp [hwn] at hw

theorem c2_run (t r : String) (steps : List (Env × Sample)) :
    ∀ s n, seqInv t s n →
      ∃ n', c2Scan t (runService r steps s).2 n = some n' ∧
        seqInv t (runService r steps s).1 n' := by
  induction steps with
  | nil =>
    intro s n hI
    exact ⟨n, by simp [runService, c2Scan], hI⟩
  | cons p rest ih =>
    intro s n hI
    obtain ⟨env, m⟩ := p
    obtain ⟨n1, h1, hI1⟩ := c2_step t r env m s n hI
    obtain ⟨n2, h2, hI2⟩ := ih _ n1 hI1
    refine ⟨n2, ?_, ?_⟩
    · simp only [runService]
      rw [c2Scan_append, h1]
      simpa using h2
    · simpa [runService] using hI2

/-- Structural shape of a serde_json value, as `create_schema` samples it:
the scalar kinds (with the integer/number split that `is_i64` makes), the
shape of an array's first element, and the per-key shapes of an object
with the keys in sorted order (so two objects with the same keys in
different insertion orders have equal shapes). -/
inductive Shape where
  | snull
  | sbool
  | sint
  | snumber
  | sstring
  | sarray (item : Option Shape)
  | sobject (fields : List (String × Shape))

mutual

/-- The shape of a value. -/
def shape : Value → Shape
  | .null => .snull
  | .bool _ => .sbool
  | .num n => if n.is_i64 then .sint else .snumber
  | .str _ => .sstring
  | .arr xs =>
    .sarray (match xs with
      | [] => none
      | x :: _ => some (shape x))
  | .obj kvs => .sobject (btreeCollect (shapeList kvs))

/-- Pointwise shapes of an object's entries. -/
def shapeList : List (String × Value) → List (String × Shape)
  | [] => []
  | (k, v) :: rest => (k, shape v) :: shapeList rest

end

mutual

/-- The schema `create_schema` produces, as a function of the shape alone. -/
def schemaOfShape : Shape → Value
  | .snull => .obj [("type", .str "null")]
  | .sbool => .obj [("type", .str "boolean")]
  | .sint => .obj [("type", .str "integer")]
  | .snumber => .obj [("type", .str "number")]
  | .sstring => .obj [("type", .str "string")]
  | .sarray none => .obj [("type", .str "array"), ("items", .obj [])]
  | .sarray (some sh) => .obj [("type", .str "array"), ("items", schemaOfShape sh)]
  | .sobject fields => .obj [("type", .str "object"), ("properties", .obj (sosList fields))]

/-- Pointwise `schemaOfShape` over shaped fields. -/
def sosList : List (String × Shape) → List (String × Value)
  | [] => []
  | (k, sh) :: rest => (k, schemaOfShape sh) :: sosList rest

end

theorem sosList_eq_map (l : List (String × Shape)) :
    sosList l = l.map (fun p => (p.1, schemaOfShape p.2)) := by
  induction l with
  | nil => rfl
  | cons p rest ih =>
    obtain ⟨k, sh⟩ := p
    simp [sosList, ih]

theorem btreeInsert_map (g : α → β) (k : String) (v : α) (l : List (String × α)) :
    (btreeInsert k v l).map (fun p => (p.1, g p.2)) =
      btreeInsert k (g v) (l.map (fun p => (p.1, g p.2))) := by
  induction l with
  | nil => simp [btreeInsert]
  | cons p rest ih =>
    obtain ⟨k', v'⟩ := p
    cases hb1 : strLt k k' with
    | true => simp [btreeInsert, hb1]
    | false =>
      by_cases h2 : k = k'
      · subst h2
        simp [btreeInsert, hb1]
      · simp [btreeInsert, hb1, h2, ih]

theorem btreeCollect_map (g : α → β) (l : List (String × α)) :
    (btreeCollect l).map (fun p => (p.1, g p.2)) =
      btreeCollect (l.map (fun p => (p.1, g p.2))) := by
  suffices hgen : ∀ (l : List (String × α)) (acc : List (String × α)),
      (l.foldl (fun acc p => btreeInsert p.1 p.2 acc) acc).map (fun p => (p.1, g p.2)) =
        (l.map (fun p => (p.1, g p.2))).foldl (fun acc p => btreeInsert p.1 p.2 acc)
          (acc.map (fun p => (p.1, g p.2))) by
    simpa [btreeCollect] using hgen l []
  intro l
  induction l with
  | nil => intro acc; rfl
  | cons p rest ih =>
    intro acc
    obtain ⟨k, v⟩ := p
    simp only [List.foldl_cons, List.map_cons]
    rw [ih, btreeInsert_map]

/-- Custom induction on serde_json values, giving the hypotheses for all
array elements and all object entry values. -/
theorem Value.inductionOn (P : Value → Prop)
    (hnull : P .null)
    (hbool : ∀ b, P (.bool b))
    (hnum : ∀ n, P (.num n))
    (hstr : ∀ s, P (.str s))
    (harr : ∀ xs, (∀ x ∈ xs, P x) → P (.arr xs))
    (hobj : ∀ kvs, (∀ p ∈ kvs, P p.2) → P (.obj kvs)) : ∀ v, P v
  | .null => hnull
  | .bool b => hbool b
  | .num n => hnum n
  | .str s => hstr s
  | .arr xs =>
    harr xs (fun x hx => Value.inductionOn P hnull hbool hnum hstr harr hobj x)
  | .obj kvs =>
    hobj kvs (fun p hp => Value.inductionOn P hnull hbool hnum hstr harr hobj p.2)
termination_by v => sizeOf v
decreasing_by
  · have h1 := List.sizeOf_lt_of_mem hx
    simp only [Value.arr.sizeOf_spec]
    omega
  · have h1 := List.sizeOf_lt_of_mem hp
    have h2 : sizeOf p.2 < sizeOf p := by
      obtain ⟨a, b⟩ := p
      simp
    simp only [Value.obj.sizeOf_spec]
    omega

theorem csList_eq (kvs : List (String × Value))
    (ih : ∀ p ∈ kvs, create_schema p.2 = schemaOfShape (shape p.2)) :
    csList kvs = (shapeList kvs).map (fun p => (p.1, schemaOfShape p.2)) := by
  induction kvs with
  | nil => rfl
  | cons p rest ihr =>
    obtain ⟨k, v⟩ := p
    simp only [csList, shapeList, List.map_cons]
    rw [ih (k, v) (List.mem_cons_self _ _), ihr (fun q hq => ih q (List.mem_cons_of_mem _ hq))]

/-- `create_schema` factors through the shape: the synthesized schema is a
function of the value's shape alone. -/
theorem create_schema_shape : ∀ v, create_schema v = schemaOfShape (shape v) := by
  intro v
  induction v using Value.inductionOn with
  | hnull => rfl
  | hbool b => rfl
  | hnum n =>
    by_cases h : n.is_i64 <;> simp [create_schema, shape, schemaOfShape, h]
  | hstr s => rfl
  | harr xs ih =>
    cases xs with
    | nil => rfl
    | cons x rest =>
      simp [create_schema, shape, schemaOfShape, ih x (List.mem_cons_self _ _)]
  | hobj kvs ih =>
    simp only [create_schema, shape, schemaOfShape]
    rw [csList_eq kvs ih, ← btreeCollect_map, sosList_eq_map]

theorem mem_btreeInsert (b : String × α) (k : String) (v : α) (l : List (String × α))
    (h : b ∈ btreeInsert k v l) : b = (k, v) ∨ b ∈ l := by
  induction l with
  | nil =>
    simp [btreeInsert] at h
    exact Or.inl h
  | cons p rest ih =>
    obtain ⟨k', v'⟩ := p
    cases hb1 : strLt k k' with
    | true =>
      simp only [btreeInsert, if_pos hb1] at h
      rcases List.mem_cons.mp h with rfl | h
      · exact Or.inl rfl
      · exact Or.inr h
    | false =>
      by_cases h2 : k = k'
      · simp only [btreeInsert, if_neg (show ¬strLt k k' = true by simp [hb1]),
          if_pos h2] at h
        rcases List.mem_cons.mp h with rfl | h
        · exact Or.inl rfl
        · exact Or.inr (List.mem_cons_of_mem _ h)
      · simp only [btreeInsert, if_neg (show ¬strLt k k' = true by simp [hb1]),
          if_neg h2] at h
        rcases List.mem_cons.mp h with rfl | h
        · exact Or.inr (List.mem_cons_self _ _)
        · rcases ih h with h | h
          · exact Or.inl h
          · exact Or.inr (List.mem_cons_of_mem _ h)

theorem listLtChars_iff : ∀ l₁ l₂ : List Char, listLtChars l₁ l₂ = true ↔ l₁ < l₂ := by
  intro l₁
  induction l₁ with
  | nil =>
    intro l₂
    cases l₂ with
    | nil =>
      constructor
      · intro h
        simp [listLtChars] at h
      · intro h
        cases h
    | cons b bs =>
      constructor
      · intro _
        exact List.Lex.nil
      · intro _
        simp [listLtChars]
  | cons a as ih =>
    intro l₂
    cases l₂ with
    | nil =>
      constructor
      · intro h
        simp [listLtChars] at h
      · intro h
        cases h
    | cons b bs =>
      by_cases hab : a < b
      · constructor
        · intro _
          exact List.Lex.rel hab
        · intro _
          simp [listLtChars, hab]
      · by_cases hba : b < a
        · constructor
          · intro h
            simp [listLtChars, hab, hba] at h
          · intro h
            cases h with
            | cons h' => exact absurd hba (lt_irrefl a)
            | rel h' => exact absurd h' hab
        · have hab' : a = b := le_antisymm (le_of_not_lt hba) (le_of_not_lt hab)
          subst hab'
          constructor
          · intro h
            have h' : listLtChars as bs = true := by
              simpa [listLtChars, lt_self_iff_false] using h
            exact List.Lex.cons ((ih bs).mp h')
          · intro h
            have h3 : as < bs := by
              cases h with
              | cons h' => exact h'
              | rel h' => exact absurd h' (lt_irrefl a)
            simpa [listLtChars, lt_self_iff_false] using (ih bs).mpr h3

theorem strLt_iff (a b : String) : strLt a b = true ↔ a < b := by
  rw [String.lt_iff_toList_lt]
  exact listLtChars_iff a.data b.data

theorem btreeInsert_pairwise (k : String) (v : α) (l : List (String × α))
    (h : List.Pairwise (fun a b => a.1 < b.1) l) :
    List.Pairwise (fun a b => a.1 < b.1) (btreeInsert k v l) := by
  induction l with
  | nil => simp [btreeInsert]
  | cons p rest ih =>
    obtain ⟨k', v'⟩ := p
    obtain ⟨hhead, htail⟩ := List.pairwise_cons.mp h
    by_cases h1 : k < k'
    · simp only [btreeInsert, if_pos ((strLt_iff k k').mpr h1)]
      refine List.Pairwise.cons ?_ h
      intro b hb
      rcases List.mem_cons.mp hb with rfl | hb
      · exact h1
      · exact lt_trans h1 (hhead b hb)
    · have hb1 : ¬strLt k k' = true := fun hh => h1 ((strLt_iff k k').mp hh)
      by_cases h2 : k = k'
      · simp only [btreeInsert, if_neg hb1, if_pos h2]
        subst h2
        exact List.Pairwise.cons hhead htail
      · simp only [btreeInsert, if_neg hb1, if_neg h2]
        have hk : k' < k := lt_of_le_of_ne (le_of_not_lt h1) (Ne.symm h2)
        refine List.Pairwise.cons ?_ (ih htail)
        intro b hb
        rcases mem_btreeInsert b k v rest hb with rfl | hb
        · exact hk
        · exact hhead b hb

theorem btreeCollect_pairwise (l : List (String × α)) :
    List.Pairwise (fun a b => a.1 < b.1) (btreeCollect l) := by
  suffices hgen : ∀ (l acc : List (String × α)),
      List.Pairwise (fun a b => a.1 < b.1) acc →
      List.Pairwise (fun a b => a.1 < b.1)
        (l.foldl (fun acc p => btreeInsert p.1 p.2 acc) acc) by
    exact hgen l [] List.Pairwise.nil
  intro l
  induction l with
  | nil => intro acc hacc; exact hacc
  | cons p rest ih =>
    intro acc hacc
    exact ih _ (btreeInsert_pairwise p.1 p.2 acc hacc)

theorem keys_btreeInsert (a k : String) (v : α) (l : List (String × α)) :
    a ∈ (btreeInsert k v l).map Prod.fst ↔ (a = k ∨ a ∈ l.map Prod.fst) := by
  induction l with
  | nil => simp [btreeInsert]
  | cons p rest ih =>
    obtain ⟨k', v'⟩ := p
    cases hb1 : strLt k k' with
    | true => simp [btreeInsert, hb1]
    | false =>
      by_cases h2 : k = k'
      · subst h2
        simp only [btreeInsert, if_neg (show ¬strLt k k = true by simp [hb1]), if_pos rfl]
        simp
      · simp only [btreeInsert, if_neg (show ¬strLt k k' = true by simp [hb1]), if_neg h2]
        simp [ih]
        tauto

theorem keys_btreeCollect (a : String) (l : List (String × α)) :
    a ∈ (btreeCollect l).map Prod.fst ↔ a ∈ l.map Prod.fst := by
  suffices hgen : ∀ (l acc : List (String × α)),
      (a ∈ ((l.foldl (fun acc p => btreeInsert p.1 p.2 acc) acc).map Prod.fst) ↔
        a ∈ l.map Prod.fst ∨ a ∈ acc.map Prod.fst) by
    simpa using hgen l []
  intro l
  induction l with
  | nil => intro acc; simp
  | cons p rest ih =>
    intro acc
    simp only [List.foldl_cons, List.map_cons, List.mem_cons]
    rw [ih (btreeInsert p.1 p.2 acc)]
    rw [keys_btreeInsert]
    tauto

theorem lookup_btreeInsert (a k : String) (v : α) (l : List (String × α)) :
    List.lookup a (btreeInsert k v l) = if a = k then some v else List.lookup a l := by
  induction l with
  | nil =>
    by_cases ha : a = k
    · simp [btreeInsert, List.lookup, ha]
    · simp [btreeInsert, List.lookup, ha, beq_eq_false_iff_ne.mpr ha]
  | cons p rest ih =>
    obtain ⟨k', v'⟩ := p
    cases hb1 : strLt k k' with
    | true =>
      by_cases ha : a = k
      · simp [btreeInsert, hb1, List.lookup, ha]
      · simp [btreeInsert, hb1, List.lookup, ha, beq_eq_false_iff_ne.mpr ha]
    | false =>
      by_cases h2 : k = k'
      · subst h2
        by_cases ha : a = k
        · simp [btreeInsert, hb1, List.lookup, ha]
        · simp [btreeInsert, hb1, List.lookup, ha, beq_eq_false_iff_ne.mpr ha]
      · by_cases ha' : a = k'
        · subst ha'
          have hak : ¬a = k := fun h => h2 h.symm
          simp [btreeInsert, hb1, h2, List.lookup, hak]
        · simp [btreeInsert, hb1, h2, List.lookup, beq_eq_false_iff_ne.mpr ha', ih]

theorem lookup_append_pairs (a : String) (l1 l2 : List (String × α)) :
    List.lookup a (l1 ++ l2) = (List.lookup a l1).or (List.lookup a l2) := by
  induction l1 with
  | nil => simp [List.lookup]
  | cons p rest ih =>
    obtain ⟨k, v⟩ := p
    by_cases ha : a = k
    · simp [List.lookup, ha]
    · simp [List.lookup, beq_eq_false_iff_ne.mpr ha, ih]

theorem lookup_eq_none_keys (a : String) (l : List (String × α))
    (h : a ∉ l.map Prod.fst) : List.lookup a l = none := by
  induction l with
  | nil => rfl
  | cons p rest ih =>
    obtain ⟨k, v⟩ := p
    simp only [List.map_cons, List.mem_cons] at h
    push_neg at h
    simp [List.lookup, beq_eq_false_iff_ne.mpr h.1, ih h.2]

theorem lookup_btreeCollect (a : String) (l : List (String × α))
    (h : (l.map Prod.fst).Nodup) :
    List.lookup a (btreeCollect l) = List.lookup a l := by
  induction l using List.reverseRecOn with
  | nil => rfl
  | append_singleton l x ih =>
    obtain ⟨xk, xv⟩ := x
    have hfold : btreeCollect (l ++ [(xk, xv)]) = btreeInsert xk xv (btreeCollect l) := by
      simp [btreeCollect, List.foldl_append]
    have hmap : ((l ++ [(xk, xv)]).map Prod.fst) = l.map Prod.fst ++ [xk] := by simp
    rw [hmap] at h
    obtain ⟨hnl, _, hdisj⟩ := List.nodup_append.mp h
    have hnot : xk ∉ l.map Prod.fst := fun hmem => hdisj hmem (List.mem_singleton_self xk)
    rw [hfold, lookup_btreeInsert, lookup_append_pairs, ih hnl]
    by_cases ha : a = xk
    · subst ha
      rw [lookup_eq_none_keys a l hnot]
      simp [List.lookup]
    · simp [List.lookup, beq_eq_false_iff_ne.mpr ha, ha]

theorem lookup_mapValues (g : α → β) (a : String) (l : List (String × α)) :
    List.lookup a (l.map (fun p => (p.1, g p.2))) = (List.lookup a l).map g := by
  induction l with
  | nil => rfl
  | cons p rest ih =>
    obtain ⟨k, v⟩ := p
    by_cases ha : a = k
    · simp [List.lookup, ha]
    · simp [List.lookup, beq_eq_false_iff_ne.mpr ha, ih]

theorem csList_map (kvs : List (String × Value)) :
    csList kvs = kvs.map (fun p => (p.1, create_schema p.2)) := by
  induction kvs with
  | nil => rfl
  | cons p rest ih =>
    obtain ⟨k, v⟩ := p
    simp [csList, ih]

/-- C5 (amended): the Schema Synthesizer maps null to `{type: null}`,
boolean to `{type: boolean}`, a number stored as a signed 64-bit integer
to `{type: integer}`, every other number (unsigned integers above
`i64::MAX`, and all float-represented numbers) to `{type: number}`,
string to `{type: string}`, an array to `{type: array, items: S}` with `S`
the schema of the first element (`{}` when empty), and an object with
distinct keys to `{type: object, properties: P}` where `P` maps each key
of the object to the schema of its value. -/
theorem C5_create_schema_cases :
    create_schema .null = .obj [("type", .str "null")]
    ∧ (∀ b, create_schema (.bool b) = .obj [("type", .str "boolean")])
    ∧ (∀ n : JNum, n.is_i64 = true → create_schema (.num n) = .obj [("type", .str "integer")])
    ∧ (∀ n : JNum, n.is_i64 = false → create_schema (.num n) = .obj [("type", .str "number")])
    ∧ (∀ s, create_schema (.str s) = .obj [("type", .str "string")])
    ∧ create_schema (.arr []) = .obj [("type", .str "array"), ("items", .obj [])]
    ∧ (∀ x xs, create_schema (.arr (x :: xs)) =
        .obj [("type", .str "array"), ("items", create_schema x)])
    ∧ (∀ kvs : List (String × Value), (kvs.map Prod.fst).Nodup →
        ∃ props, create_schema (.obj kvs) =
            .obj [("type", .str "object"), ("properties", .obj props)]
          ∧ ∀ k, List.lookup k props = (List.lookup k kvs).map create_schema) := by
  refine ⟨rfl, fun b => rfl, ?_, ?_, fun s => rfl, rfl, fun x xs => rfl, ?_⟩
  · intro n h
    simp [create_schema, h]
  · intro n h
    simp [create_schema, h]
  · intro kvs hnodup
    refine ⟨btreeCollect (csList kvs), rfl, ?_⟩
    intro k
    have hkeys : ((csList kvs).map Prod.fst).Nodup := by
      rw [csList_map]
      simpa [List.map_map, Function.comp] using hnodup
    rw [lookup_btreeCollect k (csList kvs) hkeys, csList_map, lookup_mapValues]

/-- C5 witness: concrete instances discharging each hypothesis. -/
theorem C5_create_schema_cases_witness :
    create_schema (.num (.int 5)) = .obj [("type", .str "integer")]
    ∧ create_schema (.num (.float (3 / 2 : Rat))) = .obj [("type", .str "number")]
    ∧ (∃ props, create_schema (.obj [("a", .null)]) =
          .obj [("type", .str "object"), ("properties", .obj props)]
        ∧ ∀ k, List.lookup k props = (List.lookup k [("a", Value.null)]).map create_schema) :=
  ⟨C5_create_schema_cases.2.2.1 (.int 5) rfl,
   C5_create_schema_cases.2.2.2.1 (.float (3 / 2 : Rat)) rfl,
   C5_create_schema_cases.2.2.2.2.2.2.2 [("a", .null)] (by simp)⟩

/-- C5 counterexample: the number 2^63 = 9223372036854775808 (an integral
number, stored by serde_json as a `u64` beyond the `i64` range) is mapped
to `{type: number}`, not `{type: integer}` as the claim's "every integral
number" requires. -/
theorem C5_counterexample :
    create_schema (.num (.int 9223372036854775808)) = .obj [("type", .str "number")]
    ∧ Value.obj [("type", .str "number")] ≠ Value.obj [("type", .str "integer")] := by
  constructor
  · rfl
  · intro h
    simp at h

/-- C6: for any two object values of the same shape (recursively equal key
sets with values of matching structural kinds, irrespective of key order),
the synthesized schemas are equal and serialize to byte-identical
descriptions; the schema's `properties` keys are strictly sorted and form
exactly the object's key set. -/
theorem C6_schema_deterministic (kvs₁ kvs₂ : List (String × Value))
    (h : shape (Value.obj kvs₁) = shape (Value.obj kvs₂)) :
    Value.serialize (create_schema (Value.obj kvs₁)) =
      Value.serialize (create_schema (Value.obj kvs₂))
    ∧ create_schema (Value.obj kvs₁) = create_schema (Value.obj kvs₂)
    ∧ ∃ props, create_schema (Value.obj kvs₁) =
          .obj [("type", .str "object"), ("properties", .obj props)]
        ∧ List.Pairwise (fun a b => a.1 < b.1) props
        ∧ (∀ k, k ∈ props.map Prod.fst ↔ k ∈ kvs₁.map Prod.fst) := by
  have hcs : create_schema (Value.obj kvs₁) = create_schema (Value.obj kvs₂) := by
    rw [create_schema_shape, create_schema_shape, h]
  refine ⟨by rw [hcs], hcs, btreeCollect (csList kvs₁), rfl, btreeCollect_pairwise _, ?_⟩
  intro k
  rw [keys_btreeCollect, csList_map]
  simp [List.map_map, Function.comp]

/-- C6 witness: two objects with the same keys in opposite insertion
orders (and different leaf data of the same kinds) have equal shapes,
hence byte-identical schemas with sorted keys. -/
theorem C6_schema_deterministic_witness :
    shape (Value.obj [("b", .num (.int 1)), ("a", .str "x")]) =
      shape (Value.obj [("a", .str "y"), ("b", .num (.int 2))])
    ∧ (Value.serialize (create_schema (Value.obj [("b", .num (.int 1)), ("a", .str "x")])) =
        Value.serialize (create_schema (Value.obj [("a", .str "y"), ("b", .num (.int 2))]))
      ∧ create_schema (Value.obj [("b", .num (.int 1)), ("a", .str "x")]) =
          create_schema (Value.obj [("a", .str "y"), ("b", .num (.int 2))])
      ∧ ∃ props, create_schema (Value.obj [("b", .num (.int 1)), ("a", .str "x")]) =
            .obj [("type", .str "object"), ("properties", .obj props)]
          ∧ List.Pairwise (fun a b => a.1 < b.1) props
          ∧ (∀ k, k ∈ props.map Prod.fst ↔
              k ∈ [("b", Value.num (.int 1)), ("a", Value.str "x")].map Prod.fst)) :=
  ⟨rfl, C6_schema_deterministic _ _ rfl⟩

/-- C7 (amended): with a determinable working directory, the loader fails
exactly when the identifier has fewer than two dot-separated components or
the file at `<root>/<c0>/<c1>.msg` (components beyond the second are
ignored) cannot be read; a read failure's error carries the attempted
path, a missing second component yields the name error (without a path),
and on success the file's raw text is returned. -/
theorem C7_load_cdr_schema_spec (fs : String → Except String String) (dir schema : String) :
    (∀ a, splitOnChar '.' schema = [a] →
      load_cdr_schema fs (.ok dir) schema =
        .error ("Failed to get schema name from " ++ schema))
    ∧ (∀ pkg name rest content, splitOnChar '.' schema = pkg :: name :: rest →
        fs (schemaPathOf dir pkg name) = .ok content →
        load_cdr_schema fs (.ok dir) schema = .ok content)
    ∧ (∀ pkg name rest e, splitOnChar '.' schema = pkg :: name :: rest →
        fs (schemaPathOf dir pkg name) = .error e →
        load_cdr_schema fs (.ok dir) schema =
          .error ("Failed to read schema: " ++ e ++ ", (" ++ schemaPathOf dir pkg name ++ ")"))
    ∧ (∀ pkg name rest, splitOnChar '.' schema = pkg :: name :: rest →
        ((∃ err, load_cdr_schema fs (.ok dir) schema = .error err) ↔
          ∃ e, fs (schemaPathOf dir pkg name) = .error e)) := by
  refine ⟨?_, ?_, ?_, ?_⟩
  · intro a hsplit
    unfold load_cdr_schema
    rw [hsplit]
  · intro pkg name rest content hsplit hfs
    unfold load_cdr_schema
    rw [hsplit]
    dsimp only
    rw [hfs]
  · intro pkg name rest e hsplit hfs
    unfold load_cdr_schema
    rw [hsplit]
    dsimp only
    rw [hfs]
  · intro pkg name rest hsplit
    unfold load_cdr_schema
    rw [hsplit]
    dsimp only
    cases hfs : fs (schemaPathOf dir pkg name) with
    | ok content => simp
    | error e => simp

/-- C7 witness: a well-formed two-component identifier with the file
present loads the raw text; with the file absent the error carries the
attempted path. -/
theorem C7_load_cdr_schema_spec_witness :
    load_cdr_schema
        (fun p => if p = "/w/src/external/zBlueberry/msgs/pkg/Msg.msg"
          then .ok "RAW" else .error "not found")
        (.ok "/w") "pkg.Msg" = .ok "RAW"
    ∧ load_cdr_schema (fun _ => .error "no such file") (.ok "/w") "pkg.Msg" =
        .error ("Failed to read schema: no such file, (" ++
          schemaPathOf "/w" "pkg" "Msg" ++ ")")
    ∧ load_cdr_schema (fun _ => .error "e") (.ok "/w") "nodots" =
        .error ("Failed to get schema name from nodots") :=
  ⟨(C7_load_cdr_schema_spec _ "/w" "pkg.Msg").2.1 "pkg" "Msg" [] "RAW" rfl (by rfl),
   (C7_load_cdr_schema_spec _ "/w" "pkg.Msg").2.2.1 "pkg" "Msg" [] "no such file" rfl rfl,
   (C7_load_cdr_schema_spec _ "/w" "nodots").1 "nodots" rfl⟩

/-- C7 counterexample: the identifier `a.b.c` cannot be split into exactly
a package and a name (it has three components), yet the loader succeeds
when `<root>/a/b.msg` exists — the third component is silently ignored,
contradicting the claim's "fails ... exactly when". -/
theorem C7_counterexample :
    (splitOnChar '.' "a.b.c").length = 3
    ∧ load_cdr_schema
        (fun p => if p = "/w/src/external/zBlueberry/msgs/a/b.msg"
          then .ok "TEXT" else .error "missing")
        (.ok "/w") "a.b.c" = .ok "TEXT" :=
  ⟨rfl, rfl⟩

theorem arm_disarm_exclusive (env : Env) (t : String) :
    armTrigger env t = true → disarmTrigger env t = true → False := by
  intro h1 h2
  unfold armTrigger at h1
  unfold disarmTrigger at h2
  rcases hcb : ctlBits env t with _ | b
  · rw [hcb] at h1
    simp at h1
  · rw [hcb] at h1 h2
    simp [bne] at h1 h2
    exact h1 h2

/-- When the control-inspection chain fails, the control phase does
nothing. -/
theorem ctl_noop_of_bits_none (r : String) (env : Env) (t : String) (s : ServiceState)
    (h : ctlBits env t = none) : controlPhase r env t s = (s, []) := by
  unfold ctlBits at h
  unfold controlPhase
  by_cases hb : baseModeMatch t
  · rw [if_pos hb] at h
    rw [if_pos hb]
    rcases hd : env.decoded with _ | str
    · rfl
    · rcases hp : env.parsed with _ | v
      · rfl
      · rw [hd] at h
        dsimp only at h
        rw [hp] at h
        dsimp only at h
        dsimp only
        rw [h]
  · rw [if_neg hb]

theorem countP_eq_zero_of_all {p : Event → Bool} {l : List Event}
    (h : ∀ e ∈ l, p e = false) : l.countP p = 0 :=
  List.countP_eq_zero.mpr (by intro e he; simp [h e he])

/-- C3: with the armed bit set while no container is open, the iteration
opens exactly one container, at the timestamp-derived generated path, and
ends with a writer open; with the bit clear while a container is open, the
iteration is exactly one finalize; iterations that repeat the current
state neither open nor finalize. -/
theorem C3_recording_controller (r : String) (env : Env) (m : Sample) (s : ServiceState) :
    (armTrigger env m.topic = true → s.mcap.writer = none →
      ((stepBody r env m s).2.countP Event.isOpen = 1
        ∧ Event.openContainer (r ++ "/" ++ generate_filename env) ∈ (stepBody r env m s).2
        ∧ (stepBody r env m s).1.mcap.writer = some ()
        ∧ (stepBody r env m s).2.countP Event.isFinish = 0))
    ∧ (disarmTrigger env m.topic = true → s.mcap.writer = some () →
      ((stepBody r env m s).2 = [Event.finishWriter]
        ∧ (stepBody r env m s).1.mcap.writer = none))
    ∧ (armTrigger env m.topic = true → s.mcap.writer = some () →
      ((stepBody r env m s).2.countP Event.isOpen = 0
        ∧ (stepBody r env m s).2.countP Event.isFinish = 0
        ∧ (stepBody r env m s).1.mcap.writer = some ()))
    ∧ (disarmTrigger env m.topic = true → s.mcap.writer = none →
      stepBody r env m s = (s, [])) := by
  refine ⟨?_, ?_, ?_, ?_⟩
  · intro ha hw
    rcases controlPhase_spec r env m.topic s with ⟨_, ha', _⟩ | ⟨_, _, hc⟩ |
      ⟨_, hws, _⟩ | ⟨hd, _, _⟩ | ⟨hd, _, _⟩
    · rw [ha] at ha'
      exact absurd ha' (by simp)
    · rcases stepBody_cases r env m s with ⟨_, hw2⟩ | ⟨_, hs⟩
      · rw [hc] at hw2
        simp at hw2
      · rw [hc] at hs
        have hno := processPhase_no_open_finish env m
          ({ s with mcap := { writer := some (), channel := [] } })
        rw [hs]
        refine ⟨?_, ?_, ?_, ?_⟩
        · simp only [List.countP_append]
          rw [countP_eq_zero_of_all (fun e he => (hno e he).1)]
          simp [List.countP_cons, Event.isOpen]
        · simp
        · rw [processPhase_writer]
        · simp only [List.countP_append]
          rw [countP_eq_zero_of_all (fun e he => (hno e he).2)]
          simp [List.countP_cons, Event.isFinish]
    · rw [hws] at hw
      simp at hw
    · exact (arm_disarm_exclusive env m.topic ha hd).elim
    · exact (arm_disarm_exclusive env m.topic ha hd).elim
  · intro hd hw
    rcases controlPhase_spec r env m.topic s with ⟨_, _, hd'⟩ | ⟨ha, _, _⟩ |
      ⟨ha, _, _⟩ | ⟨_, _, hc⟩ | ⟨_, hwn, _⟩
    · rw [hd] at hd'
      exact absurd hd' (by simp)
    · exact (arm_disarm_exclusive env m.topic ha hd).elim
    · exact (arm_disarm_exclusive env m.topic ha hd).elim
    · rcases stepBody_cases r env m s with ⟨hs, _⟩ | ⟨hw2, _⟩
      · rw [hs, hc]
        exact ⟨rfl, rfl⟩
      · rw [hc] at hw2
        simp at hw2
    · rw [hwn] at hw
      simp at hw
  · intro ha hw
    rcases controlPhase_spec r env m.topic s with ⟨_, ha', _⟩ | ⟨_, hwn, _⟩ |
      ⟨_, _, hc⟩ | ⟨hd, _, _⟩ | ⟨hd, _, _⟩
    · rw [ha] at ha'
      exact absurd ha' (by simp)
    · rw [hwn] at hw
      simp at hw
    · rcases stepBody_cases r env m s with ⟨_, hw2⟩ | ⟨_, hs⟩
      · rw [hc] at hw2
        simp [hw] at hw2
      · rw [hc] at hs
        have hno := processPhase_no_open_finish env m s
        rw [hs]
        refine ⟨?_, ?_, ?_⟩
        · simp only [List.countP_append]
          rw [countP_eq_zero_of_all (fun e he => (hno e he).1)]
          simp
        · simp only [List.countP_append]
          rw [countP_eq_zero_of_all (fun e he => (hno e he).2)]
          simp
        · rw [processPhase_writer]
          exact hw
    · exact (arm_disarm_exclusive env m.topic ha hd).elim
    · exact (arm_disarm_exclusive env m.topic ha hd).elim
  · intro hd hw
    rcases controlPhase_spec r env m.topic s with ⟨hc, _, _⟩ | ⟨ha, _, _⟩ |
      ⟨ha, _, _⟩ | ⟨_, hws, _⟩ | ⟨_, _, hc⟩
    · rcases stepBody_cases r env m s with ⟨hs, _⟩ | ⟨hw2, _⟩
      · rw [hs, hc]
      · rw [hc] at hw2
        simp [hw] at hw2
    · exact (arm_disarm_exclusive env m.topic ha hd).elim
    · exact (arm_disarm_exclusive env m.topic ha hd).elim
    · rw [hws] at hw
      simp at hw
    · rcases stepBody_cases r env m s with ⟨hs, _⟩ | ⟨hw2, _⟩
      · rw [hs, hc]
      · rw [hc] at hw2
        simp [hw] at hw2

/-- C4 (amended): a message processed while the writer is closed that does
not trigger the Disarmed-to-Armed transition leaves the whole state
untouched and produces no events at all — in particular no schema
registration, no channel registration and no append. -/
theorem C4_disarmed_untouched (r : String) (env : Env) (m : Sample) (s : ServiceState)
    (hw : s.mcap.writer = none) (ha : armTrigger env m.topic = false) :
    stepBody r env m s = (s, []) := by
  rcases controlPhase_spec r env m.topic s with ⟨hc, _, _⟩ | ⟨ha', _, _⟩ |
    ⟨_, hws, _⟩ | ⟨_, hws, _⟩ | ⟨_, _, hc⟩
  · rcases stepBody_cases r env m s with ⟨hs, _⟩ | ⟨hw2, _⟩
    · rw [hs, hc]
    · rw [hc] at hw2
      simp [hw] at hw2
  · rw [ha] at ha'
    exact absurd ha' (by simp)
  · rw [hws] at hw
    simp at hw
  · rw [hws] at hw
    simp at hw
  · rcases stepBody_cases r env m s with ⟨hs, _⟩ | ⟨hw2, _⟩
    · rw [hs, hc]
    · rw [hc] at hw2
      simp [hw] at hw2

/-- A control message with the safety-armed bit set, on a topic matching
the control pattern, with a decodable, parseable object payload, and a
writer oracle that succeeds. -/
def envArm : Env where
  decoded := some "x"
  parsed := some (Value.obj [("bits", Value.num (JNum.int 128))])
  fs := fun _ => Except.error "nf"
  currentDir := Except.ok "/w"
  addSchemaRes := some 3
  addChannelRes := some 7
  writeErr := none
  now := 5
  nowOpen := 5
  formatTime := fun _ => "TS"

/-- A JSON-encoded sample on the heartbeat control topic. -/
def sampleCtl : Sample where
  topic := "mavlink/1/1/HEARTBEAT/base_mode"
  payload := [1, 2]
  encoding := "application/json"

/-- C4 counterexample: the arming control message is processed starting in
the Disarmed state (writer closed), yet its iteration registers a schema,
registers a channel and appends a record — the catalog and the writer are
not left untouched.  (The claim's "no ingested message (of any topic or
encoding)" fails on the Disarmed-to-Armed control message itself.) -/
theorem C4_counterexample :
    (startState 0).mcap.writer = none
    ∧ stepBody "/rec" envArm sampleCtl (startState 0) =
      ({ mcap := { writer := some (), channel := [(sampleCtl.topic, Channel.mk 7 1)] },
          lastFlush := 0 },
       [Event.openContainer "/rec/recorder_TS.mcap",
        Event.addSchema "mavlink.1.1.HEARTBEAT.base_mode" "jsonschema"
          (Value.serialize (create_schema (Value.obj [("bits", Value.num (JNum.int 128))]))),
        Event.addChannel 3 sampleCtl.topic "json",
        Event.writeMessage sampleCtl.topic 7 0 5 5 [1, 2]]) :=
  ⟨rfl, rfl⟩

/-- C4 witness: a non-control message while disarmed leaves the state
untouched with no events. -/
theorem C4_disarmed_untouched_witness :
    (startState 0).mcap.writer = none
    ∧ armTrigger envArm "a/b" = false
    ∧ stepBody "/rec" envArm { topic := "a/b", payload := [7], encoding := "application/json" }
        (startState 0) = (startState 0, []) :=
  ⟨rfl, rfl, C4_disarmed_untouched "/rec" envArm
    { topic := "a/b", payload := [7], encoding := "application/json" } (startState 0) rfl rfl⟩

/-- C3 witness: the arming message opens exactly one container at the
generated path, and a disarming message while armed is exactly one
finalize. -/
theorem C3_recording_controller_witness :
    armTrigger envArm sampleCtl.topic = true
    ∧ (startState 0).mcap.writer = none
    ∧ ((stepBody "/rec" envArm sampleCtl (startState 0)).2.countP Event.isOpen = 1
        ∧ Event.openContainer ("/rec" ++ "/" ++ generate_filename envArm) ∈
            (stepBody "/rec" envArm sampleCtl (startState 0)).2
        ∧ (stepBody "/rec" envArm sampleCtl (startState 0)).1.mcap.writer = some ()
        ∧ (stepBody "/rec" envArm sampleCtl (startState 0)).2.countP Event.isFinish = 0) :=
  ⟨rfl, rfl, (C3_recording_controller "/rec" envArm sampleCtl (startState 0)).1 rfl rfl⟩

theorem getKey_none_of_not_object (v : Value) (k : String) (h : v.isObject = false) :
    v.getKey k = none := by
  cases v <;> simp_all [Value.getKey, Value.isObject]

/-- When the control phase does nothing and the writer is open, the
iteration is exactly the processing phase. -/
theorem step_noctl_process (r : String) (env : Env) (m : Sample) (s : ServiceState)
    (hctl : controlPhase r env m.topic s = (s, []))
    (hw : s.mcap.writer = some ()) :
    stepBody r env m s = processPhase env m s := by
  rcases stepBody_cases r env m s with ⟨hs, hw2⟩ | ⟨hw2, hs⟩
  · rw [hctl] at hw2
    dsimp only at hw2
    rw [hw] at hw2
    simp at hw2
  · rw [hs, hctl]
    dsimp only
    simp

/-- The encoding resolution of a structured-text (JSON) message, by
failure mode. -/
theorem resolveEncoding_json (env : Env) (m : Sample) (e1 : Option String)
    (he : splitEncoding m.encoding = ("application/json", e1)) :
    resolveEncoding env m =
      match env.decoded with
      | none => .inr [.logWarn (m.topic ++ ": Failed to decode payload as UTF-8 string")]
      | some string =>
        match env.parsed with
        | none => .inr [.logWarn (m.topic ++ ": Failed to parse payload as JSON5: " ++ string)]
        | some value =>
          if value.isObject then .inl ("jsonschema", (create_schema value).serialize, "json")
          else .inr [] := by
  unfold resolveEncoding
  rw [he]
  rcases e1 with _ | tok <;> rfl

/-- C8 (amended): a structured-text message on an unregistered topic whose
payload cannot be decoded as UTF-8, or cannot be parsed, is dropped with a
single warning logged; one that parses to a non-object value is dropped
silently (the source has no log call there).  In all three cases the state
is completely unchanged: no channel registered, no record written, the
writer still open, the topic still unregistered (so a later message
resolves afresh), and the loop continues. -/
theorem C8_json_resolution_failures (r : String) (env : Env) (m : Sample) (s : ServiceState)
    (e1 : Option String)
    (hw : s.mcap.writer = some ()) (hl : List.lookup m.topic s.mcap.channel = none)
    (he : splitEncoding m.encoding = ("application/json", e1)) :
    (env.decoded = none →
      stepBody r env m s =
        (s, [Event.logWarn (m.topic ++ ": Failed to decode payload as UTF-8 string")]))
    ∧ (∀ str, env.decoded = some str → env.parsed = none →
      stepBody r env m s =
        (s, [Event.logWarn (m.topic ++ ": Failed to parse payload as JSON5: " ++ str)]))
    ∧ (∀ str v, env.decoded = some str → env.parsed = some v → v.isObject = false →
      stepBody r env m s = (s, [])) := by
  refine ⟨?_, ?_, ?_⟩
  · intro hdec
    have hctl : controlPhase r env m.topic s = (s, []) := by
      apply ctl_noop_of_bits_none
      unfold ctlBits
      by_cases hb : baseModeMatch m.topic <;> simp [hb, hdec]
    rw [step_noctl_process r env m s hctl hw]
    unfold processPhase
    rw [hl]
    dsimp only
    rw [resolveEncoding_json env m e1 he, hdec]
  · intro str hdec hpar
    have hctl : controlPhase r env m.topic s = (s, []) := by
      apply ctl_noop_of_bits_none
      unfold ctlBits
      by_cases hb : baseModeMatch m.topic <;> simp [hb, hdec, hpar]
    rw [step_noctl_process r env m s hctl hw]
    unfold processPhase
    rw [hl]
    dsimp only
    rw [resolveEncoding_json env m e1 he, hdec]
    dsimp only
    rw [hpar]
  · intro str v hdec hpar hobj
    have hctl : controlPhase r env m.topic s = (s, []) := by
      apply ctl_noop_of_bits_none
      unfold ctlBits
      by_cases hb : baseModeMatch m.topic <;>
        simp [hb, hdec, hpar, getKey_none_of_not_object v _ hobj]
    rw [step_noctl_process r env m s hctl hw]
    unfold processPhase
    rw [hl]
    dsimp only
    rw [resolveEncoding_json env m e1 he, hdec]
    dsimp only
    rw [hpar]
    dsimp only
    rw [if_neg (by simp [hobj])]

/-- A JSON-encoded sample on an ordinary (non-control) topic. -/
def sampleT : Sample where
  topic := "a/b"
  payload := [7]
  encoding := "application/json"

/-- A state with an open writer and an empty catalog. -/
def armedState : ServiceState where
  mcap := { writer := some (), channel := [] }
  lastFlush := 0

/-- The arming oracle with a payload parsing to a non-object value. -/
def envNonObj : Env :=
  { envArm with parsed := some (Value.num (JNum.int 5)) }

/-- The arming oracle with a payload parsing to an object without a
`bits` field. -/
def envObj : Env :=
  { envArm with parsed := some (Value.obj [("k", Value.str "v")]) }

/-- C8 counterexample: a structured-text message on an unregistered topic
whose payload parses to the non-object value `5` is dropped with NO log
event at all — the claim's "the condition is logged" fails for the
non-object case (the source's `continue` has no log call). -/
theorem C8_counterexample :
    envNonObj.decoded = some "x"
    ∧ envNonObj.parsed = some (Value.num (JNum.int 5))
    ∧ (Value.num (JNum.int 5)).isObject = false
    ∧ armedState.mcap.writer = some ()
    ∧ List.lookup sampleT.topic armedState.mcap.channel = none
    ∧ stepBody "/rec" envNonObj sampleT armedState = (armedState, []) :=
  ⟨rfl, rfl, rfl, rfl, rfl, rfl⟩

/-- C8 witness: the UTF-8-decode-failure case at a concrete input. -/
theorem C8_json_resolution_failures_witness :
    stepBody "/rec" ({ envArm with decoded := none }) sampleT armedState =
      (armedState,
       [Event.logWarn (sampleT.topic ++ ": Failed to decode payload as UTF-8 string")]) :=
  (C8_json_resolution_failures "/rec" ({ envArm with decoded := none }) sampleT armedState
    none rfl rfl rfl).1 rfl

/-- C9 (amended): whenever an iteration registers a schema, the registered
name is the second component of the encoding descriptor when present (for
any encoding branch, including structured-text messages carrying a
secondary token), and otherwise the topic with every `/` replaced by `.`. -/
theorem C9_schema_name (r : String) (env : Env) (m : Sample) (s : ServiceState)
    (n enc d : String) (h : Event.addSchema n enc d ∈ (stepBody r env m s).2) :
    n = (splitEncoding m.encoding).2.getD (canonicalName m.topic) := by
  have hctl_events : ∀ s' : ServiceState,
      Event.addSchema n enc d ∈ (controlPhase r env m.topic s').2 → False := by
    intro s' hmem
    rcases controlPhase_spec r env m.topic s' with ⟨hc, _, _⟩ | ⟨_, _, hc⟩ |
      ⟨_, _, hc⟩ | ⟨_, _, hc⟩ | ⟨_, _, hc⟩ <;> rw [hc] at hmem <;> simp at hmem
  have hproc_events : ∀ s' : ServiceState,
      Event.addSchema n enc d ∈ (processPhase env m s').2 →
      n = (splitEncoding m.encoding).2.getD (canonicalName m.topic) := by
    intro s' hmem
    rcases processPhase_spec env m s' with ⟨h1, h2⟩ | ⟨hl, enc', d', w, hp⟩ |
      ⟨ch, fl, hl, hp⟩ | ⟨hl, enc', d', sid, cid, menc, fl, hp⟩ |
      ⟨hl, enc', d', sid, cid, menc, w, hp⟩
    · rcases h2 with h2 | ⟨w, h2⟩ | ⟨w, h2⟩ <;> rw [h2] at hmem <;> simp at hmem
    · rw [hp] at hmem
      simp at hmem
      exact hmem.1
    · rw [hp] at hmem
      cases fl <;> simp at hmem
    · rw [hp] at hmem
      cases fl <;> simp at hmem <;> exact hmem.1
    · rw [hp] at hmem
      simp at hmem
      exact hmem.1
  rcases stepBody_cases r env m s with ⟨hs, _⟩ | ⟨_, hs⟩
  · rw [hs] at h
    exact absurd h (fun hmem => hctl_events s hmem)
  · rw [hs] at h
    dsimp only at h
    rcases List.mem_append.mp h with h | h
    · exact absurd h (fun hmem => hctl_events s hmem)
    · exact hproc_events _ h

/-- A JSON-encoded sample whose encoding descriptor carries a secondary
token. -/
def sampleTok : Sample where
  topic := "a/b"
  payload := [7]
  encoding := "application/json;x"

/-- C9 counterexample: a structured-text (JSON-encoded) message whose
encoding string is `application/json;x` registers its schema under the
name `x`, not under the canonicalized topic `a.b` — the claim's "for every
structured-text (JSON-encoded) message, the registered schema name is the
canonicalized topic" fails. -/
theorem C9_counterexample :
    splitEncoding sampleTok.encoding = ("application/json", some "x")
    ∧ (stepBody "/rec" envObj sampleTok armedState).2 =
      [Event.addSchema "x" "jsonschema"
        (Value.serialize (create_schema (Value.obj [("k", Value.str "v")]))),
       Event.addChannel 3 sampleTok.topic "json",
       Event.writeMessage sampleTok.topic 7 0 5 5 [7]]
    ∧ "x" ≠ canonicalName sampleTok.topic :=
  ⟨rfl, rfl, by decide⟩

/-- C9 witness: a JSON message without a secondary token registers under
the canonicalized topic. -/
theorem C9_schema_name_witness :
    Event.addSchema "a.b" "jsonschema"
        (Value.serialize (create_schema (Value.obj [("k", Value.str "v")]))) ∈
      (stepBody "/rec" envObj sampleT armedState).2
    ∧ "a.b" = (splitEncoding sampleT.encoding).2.getD (canonicalName sampleT.topic) := by
  have hev : (stepBody "/rec" envObj sampleT armedState).2 =
      [Event.addSchema "a.b" "jsonschema"
        (Value.serialize (create_schema (Value.obj [("k", Value.str "v")]))),
       Event.addChannel 3 sampleT.topic "json",
       Event.writeMessage sampleT.topic 7 0 5 5 [7]] := rfl
  constructor
  · rw [hev]
    exact List.mem_cons_self _ _
  · exact C9_schema_name "/rec" envObj sampleT armedState _ _ _
      (by rw [hev]; exact List.mem_cons_self _ _)

/-- C10: the control message that arms the recorder is itself recorded.
Starting with the writer closed, an arming control message whose JSON
payload resolves successfully opens the container and then, in the same
iteration, registers the control topic's schema and channel and appends
the message as the container's first record, with sequence number 0 (the
cached counter advancing to 1). -/
theorem C10_arming_message_recorded (r : String) (env : Env) (m : Sample) (s : ServiceState)
    (e1 : Option String) (str : String) (v : Value) (sid cid : Nat)
    (hw : s.mcap.writer = none)
    (ha : armTrigger env m.topic = true)
    (hdec : env.decoded = some str)
    (hpar : env.parsed = some v)
    (hobj : v.isObject = true)
    (he : splitEncoding m.encoding = ("application/json", e1))
    (hsid : env.addSchemaRes = some sid)
    (hcid : env.addChannelRes = some cid)
    (hwe : env.writeErr = none)
    (hfl : env.now ≤ s.lastFlush + 30000000000) :
    stepBody r env m s =
      ({ mcap := { writer := some (), channel := [(m.topic, Channel.mk cid 1)] },
          lastFlush := s.lastFlush },
       [Event.openContainer (r ++ "/" ++ generate_filename env),
        Event.addSchema (e1.getD (canonicalName m.topic)) "jsonschema"
          (Value.serialize (create_schema v)),
        Event.addChannel sid m.topic "json",
        Event.writeMessage m.topic cid 0 env.now env.now m.payload]) := by
  have hb : baseModeMatch m.topic = true := by
    by_contra hbf
    unfold armTrigger ctlBits at ha
    simp [hbf] at ha
  obtain ⟨b, hbits, hbit⟩ : ∃ b, (v.getKey "bits").bind Value.as_u64 = some b
      ∧ (b &&& 128 != 0) = true := by
    unfold armTrigger ctlBits at ha
    rw [if_pos hb, hdec] at ha
    dsimp only at ha
    rw [hpar] at ha
    dsimp only at ha
    rcases hbits : (v.getKey "bits").bind Value.as_u64 with _ | b
    · rw [hbits] at ha
      simp at ha
    · rw [hbits] at ha
      exact ⟨b, rfl, ha⟩
  have hctl : controlPhase r env m.topic s =
      ({ s with mcap := { writer := some (), channel := [] } },
       [Event.openContainer (r ++ "/" ++ generate_filename env)]) := by
    unfold controlPhase
    rw [if_pos hb, hdec]
    dsimp only
    rw [hpar]
    dsimp only
    rw [hbits]
    dsimp only
    rw [if_pos hbit, hw]
  have hres := resolveEncoding_json env m e1 he
  rw [hdec] at hres
  dsimp only at hres
  rw [hpar] at hres
  dsimp only at hres
  rw [if_pos hobj] at hres
  have hlf : ¬(env.now - s.lastFlush > 30000000000) := by omega
  have hproc : processPhase env m ({ s with mcap := { writer := some (), channel := [] } }) =
      ({ mcap := { writer := some (), channel := [(m.topic, Channel.mk cid 1)] },
          lastFlush := s.lastFlush },
       [Event.addSchema (e1.getD (canonicalName m.topic)) "jsonschema"
          (Value.serialize (create_schema v)),
        Event.addChannel sid m.topic "json",
        Event.writeMessage m.topic cid 0 env.now env.now m.payload]) := by
    unfold processPhase appendPhase
    simp [hres, hsid, hcid, hwe, he, hlf, insertCh, List.lookup, Channel.new]
  rcases stepBody_cases r env m s with ⟨hs, hw2⟩ | ⟨hw2, hs⟩
  · rw [hctl] at hw2
    simp at hw2
  · rw [hs, hctl]
    dsimp only
    rw [hproc]
    rfl

/-- C10 witness: the concrete arming message from the start state is
recorded as the new container's first record with sequence 0. -/
theorem C10_arming_message_recorded_witness :
    stepBody "/rec" envArm sampleCtl (startState 0) =
      ({ mcap := { writer := some (), channel := [(sampleCtl.topic, Channel.mk 7 1)] },
          lastFlush := 0 },
       [Event.openContainer ("/rec" ++ "/" ++ generate_filename envArm),
        Event.addSchema ((none : Option String).getD (canonicalName sampleCtl.topic))
          "jsonschema"
          (Value.serialize (create_schema (Value.obj [("bits", Value.num (JNum.int 128))]))),
        Event.addChannel 3 sampleCtl.topic "json",
        Event.writeMessage sampleCtl.topic 7 0 envArm.now envArm.now sampleCtl.payload]) :=
  C10_arming_message_recorded "/rec" envArm sampleCtl (startState 0) none "x"
    (Value.obj [("bits", Value.num (JNum.int 128))]) 3 7
    rfl rfl rfl rfl rfl rfl rfl rfl rfl (by decide)

theorem processPhase_registration_iff (env : Env) (m : Sample) (s1 : ServiceState)
    (hl : List.lookup m.topic s1.mcap.channel = none) :
    (List.lookup m.topic (processPhase env m s1).1.mcap.channel).isSome = true ↔
      ((processPhase env m s1).2.countP Event.isAddSchemaEv = 1
        ∧ (processPhase env m s1).2.countP (Event.isAddChannelFor m.topic) = 1) := by
  rcases processPhase_spec env m s1 with ⟨h1, h2⟩ | ⟨hl', enc, d, w, hp⟩ |
    ⟨ch, fl, hl', hp⟩ | ⟨hl', enc, d, sid, cid, menc, fl, hp⟩ |
    ⟨hl', enc, d, sid, cid, menc, w, hp⟩
  · rw [h1, hl]
    rcases h2 with h2 | ⟨w, h2⟩ | ⟨w, h2⟩ <;> rw [h2] <;>
      simp [List.countP_cons, Event.isAddSchemaEv, Event.isAddChannelFor]
  · rw [hp]
    simp [hl, List.countP_cons, Event.isAddSchemaEv, Event.isAddChannelFor]
  · rw [hl] at hl'
    cases hl'
  · rw [hp]
    cases fl <;>
      simp [lookup_insertCh_self, List.countP_cons, Event.isAddSchemaEv,
        Event.isAddChannelFor, Event.isOpen]
  · rw [hp]
    simp [lookup_insertCh_self, List.countP_cons, Event.isAddSchemaEv, Event.isAddChannelFor]

theorem processPhase_no_reg_of_hit (env : Env) (m : Sample) (s1 : ServiceState)
    (hl : (List.lookup m.topic s1.mcap.channel).isSome = true) :
    (processPhase env m s1).2.countP Event.isAddSchemaEv = 0
    ∧ (processPhase env m s1).2.countP (Event.isAddChannelFor m.topic) = 0 := by
  rcases processPhase_spec env m s1 with ⟨h1, h2⟩ | ⟨hl', enc, d, w, hp⟩ |
    ⟨ch, fl, hl', hp⟩ | ⟨hl', enc, d, sid, cid, menc, fl, hp⟩ |
    ⟨hl', enc, d, sid, cid, menc, w, hp⟩
  · rcases h2 with h2 | ⟨w, h2⟩ | ⟨w, h2⟩ <;> rw [h2] <;>
      simp [List.countP_cons, Event.isAddSchemaEv, Event.isAddChannelFor]
  · rw [hl'] at hl
    simp at hl
  · rw [hp]
    cases fl <;>
      simp [List.countP_cons, Event.isAddSchemaEv, Event.isAddChannelFor]
  · rw [hl'] at hl
    simp at hl
  · rw [hl'] at hl
    simp at hl

/-- C1: per topic and per open container, at most one channel is
registered (any contiguous, open-free window of the loop's event trace
contains at most one channel registration for a topic); a message on an
unseen topic ends registered exactly when its iteration performed exactly
one schema registration and one channel registration; a message on a
registered topic (with the writer open) performs no registrations at all;
and, for a non-control topic, a cache-hit iteration is entirely
independent of the payload-inspection and schema-loading oracles — the
encoding and payload are not re-inspected. -/
theorem C1_channel_registered_once :
    (∀ (r : String) (lf : Nat) (steps : List (Env × Sample)) (t : String)
        (pre mid post : List Event),
      (runService r steps (startState lf)).2 = pre ++ mid ++ post →
      (∀ e ∈ mid, e.isOpen = false) →
      mid.countP (Event.isAddChannelFor t) ≤ 1)
    ∧ (∀ (r : String) (env : Env) (m : Sample) (s : ServiceState),
      List.lookup m.topic s.mcap.channel = none →
      ((List.lookup m.topic (stepBody r env m s).1.mcap.channel).isSome = true ↔
        ((stepBody r env m s).2.countP Event.isAddSchemaEv = 1
          ∧ (stepBody r env m s).2.countP (Event.isAddChannelFor m.topic) = 1)))
    ∧ (∀ (r : String) (env : Env) (m : Sample) (s : ServiceState),
      s.mcap.writer = some () → (List.lookup m.topic s.mcap.channel).isSome = true →
      ((stepBody r env m s).2.countP Event.isAddSchemaEv = 0
        ∧ (stepBody r env m s).2.countP (Event.isAddChannelFor m.topic) = 0))
    ∧ (∀ (r : String) (env : Env) (m : Sample) (s : ServiceState) (d' : Option String)
        (p' : Option Value) (f' : String → Except String String)
        (c' : Except String String),
      s.mcap.writer = some () → (List.lookup m.topic s.mcap.channel).isSome = true →
      baseModeMatch m.topic = false →
      stepBody r ({ env with decoded := d', parsed := p', fs := f', currentDir := c' }) m s =
        stepBody r env m s) := by
  refine ⟨?_, ?_, ?_, ?_⟩
  · intro r lf steps t pre mid post htrace hno
    by_contra hcnt
    obtain ⟨f', hscan, _⟩ := c1_run t r steps (startState lf) false (by intro h; simp at h)
    rw [htrace] at hscan
    rw [List.append_assoc, c1Scan_append] at hscan
    cases hpre : c1Scan t pre false with
    | none =>
      rw [hpre] at hscan
      simp at hscan
    | some f1 =>
      rw [hpre] at hscan
      simp only [Option.some_bind] at hscan
      rw [c1Scan_append] at hscan
      rw [c1Scan_none_of_two t mid hno (by omega) f1] at hscan
      simp at hscan
  · intro r env m s hl
    rcases stepBody_cases r env m s with ⟨hs, hw2⟩ | ⟨hw2, hs⟩
    · rcases controlPhase_spec r env m.topic s with ⟨hc, _, _⟩ | ⟨_, _, hc⟩ |
        ⟨_, _, hc⟩ | ⟨_, _, hc⟩ | ⟨_, _, hc⟩
      · rw [hs, hc]
        simp [hl]
      · rw [hc] at hw2
        simp at hw2
      · rw [hs, hc]
        simp [hl]
      · rw [hs, hc]
        simp [hl, List.countP_cons, Event.isAddSchemaEv, Event.isAddChannelFor]
      · rw [hs, hc]
        simp [hl]
    · rcases controlPhase_spec r env m.topic s with ⟨hc, _, _⟩ | ⟨_, _, hc⟩ |
        ⟨_, _, hc⟩ | ⟨_, _, hc⟩ | ⟨_, hwn, hc⟩
      · rw [hs, hc]
        dsimp only
        have hiff := processPhase_registration_iff env m s hl
        simpa using hiff
      · rw [hs, hc]
        dsimp only
        have hiff := processPhase_registration_iff env m
          ({ s with mcap := { writer := some (), channel := [] } }) (by simp [List.lookup])
        simp only [List.singleton_append, List.countP_cons, Event.isAddSchemaEv,
          Event.isAddChannelFor]
        simpa [List.countP_cons, Event.isOpen, Event.isAddSchemaEv,
          Event.isAddChannelFor] using hiff
      · rw [hs, hc]
        dsimp only
        have hiff := processPhase_registration_iff env m s hl
        simpa using hiff
      · rw [hc] at hw2
        simp at hw2
      · rw [hc] at hw2
        dsimp only at hw2
        rw [hwn] at hw2
        simp at hw2
  · intro r env m s hw hsome
    rcases stepBody_cases r env m s with ⟨hs, hw2⟩ | ⟨hw2, hs⟩
    · rcases controlPhase_spec r env m.topic s with ⟨hc, _, _⟩ | ⟨_, hwn, _⟩ |
        ⟨_, _, hc⟩ | ⟨_, _, hc⟩ | ⟨_, hwn, _⟩
      · rw [hc] at hw2
        dsimp only at hw2
        rw [hw] at hw2
        simp at hw2
      · rw [hwn] at hw
        simp at hw
      · rw [hc] at hw2
        dsimp only at hw2
        rw [hw] at hw2
        simp at hw2
      · rw [hs, hc]
        simp [List.countP_cons, Event.isAddSchemaEv, Event.isAddChannelFor]
      · rw [hwn] at hw
        simp at hw
    · rcases controlPhase_spec r env m.topic s with ⟨hc, _, _⟩ | ⟨_, hwn, _⟩ |
        ⟨_, _, hc⟩ | ⟨_, _, hc⟩ | ⟨_, hwn, _⟩
      · rw [hs, hc]
        dsimp only
        have := processPhase_no_reg_of_hit env m s hsome
        simpa using this
      · rw [hwn] at hw
        simp at hw
      · rw [hs, hc]
        dsimp only
        have := processPhase_no_reg_of_hit env m s hsome
        simpa using this
      · rw [hc] at hw2
        simp at hw2
      · rw [hwn] at hw
        simp at hw
  · intro r env m s d' p' f' c' hw hsome hb
    obtain ⟨ch, hch⟩ := Option.isSome_iff_exists.mp hsome
    have hctl1 : controlPhase r ({ env with decoded := d', parsed := p', fs := f', currentDir := c' }) m.topic s = (s, []) := by
      unfold controlPhase
      rw [if_neg (by simp [hb])]
    have hctl2 : controlPhase r env m.topic s = (s, []) := by
      unfold controlPhase
      rw [if_neg (by simp [hb])]
    rw [step_noctl_process r _ m s hctl1 hw, step_noctl_process r env m s hctl2 hw]
    unfold processPhase
    rw [hch]
    rfl

theorem range_map_mod (n : Nat) (h : n ≤ 4294967296) :
    (List.range n).map (· % 4294967296) = List.range n := by
  conv_rhs => rw [← List.map_id (List.range n)]
  apply List.map_congr_left
  intro i hi
  simp only [List.mem_range] at hi
  simp [Nat.mod_eq_of_lt (lt_of_lt_of_le hi h)]

theorem c2Scan_open_cons (t p : String) (mid : List Event) (n : Nat) :
    c2Scan t (Event.openContainer p :: mid) n = c2Scan t mid 0 := by
  simp [c2Scan, Event.isOpen]

/-- C2 (amended): within one open container, the sequence numbers of the
records successfully appended on a topic's channel are exactly 0, 1, 2, …
as long as the channel receives at most 2^32 appends in that container
(the counter is a `u32` and wraps past that); the counter starts at 0, a
successful append advances it by one (mod 2^32), and an iteration that
appends nothing on that channel — a failed or dropped append, or traffic
on other channels — leaves the cached entry exactly unchanged. -/
theorem C2_sequence_numbers :
    (∀ (r : String) (lf : Nat) (steps : List (Env × Sample)) (t p : String)
        (pre mid : List Event),
      (runService r steps (startState lf)).2 = pre ++ Event.openContainer p :: mid →
      (∀ e ∈ mid, e.isOpen = false) →
      mid.countP (Event.isWriteFor t) ≤ 4294967296 →
      mid.filterMap (Event.writeSeqFor t) = List.range (mid.countP (Event.isWriteFor t)))
    ∧ (∀ cid, (Channel.new cid).sequence = 0)
    ∧ (∀ (r : String) (env : Env) (m : Sample) (s : ServiceState) (t : String) (ch : Channel),
      List.lookup t s.mcap.channel = some ch →
      (∀ e ∈ (stepBody r env m s).2, e.isOpen = false) →
      (((stepBody r env m s).2.countP (Event.isWriteFor t) = 1 →
          List.lookup t (stepBody r env m s).1.mcap.channel =
            some (Channel.mk ch.channel_id ((ch.sequence + 1) % 4294967296)))
        ∧ ((stepBody r env m s).2.countP (Event.isWriteFor t) = 0 →
          List.lookup t (stepBody r env m s).1.mcap.channel = some ch))) := by
  refine ⟨?_, fun cid => rfl, ?_⟩
  · intro r lf steps t p pre mid htrace hno hcount
    obtain ⟨n', hscan, _⟩ := c2_run t r steps (startState lf) 0 (by simp [seqInv, startState])
    rw [htrace, c2Scan_append] at hscan
    cases hpre : c2Scan t pre 0 with
    | none =>
      rw [hpre] at hscan
      simp at hscan
    | some n1 =>
      rw [hpre] at hscan
      simp only [Option.some_bind] at hscan
      rw [c2Scan_open_cons] at hscan
      obtain ⟨h0, hcnt, hseqs⟩ := c2Scan_seqs t mid hno 0 n' hscan
      have hn' : mid.countP (Event.isWriteFor t) = n' := by omega
      rw [hn', hseqs]
      simp only [Nat.sub_zero]
      rw [← List.range_eq_range']
      exact range_map_mod n' (by omega)
  · intro r env m s t ch hl hno
    rcases stepBody_cases r env m s with ⟨hs, hw2⟩ | ⟨hw2, hs⟩
    · rcases controlPhase_spec r env m.topic s with ⟨hc, _, _⟩ | ⟨_, _, hc⟩ |
        ⟨_, _, hc⟩ | ⟨_, _, hc⟩ | ⟨_, _, hc⟩
      · rw [hs, hc]
        exact ⟨by intro h; simp at h, fun _ => hl⟩
      · rw [hc] at hw2
        simp at hw2
      · rw [hs, hc]
        exact ⟨by intro h; simp at h, fun _ => hl⟩
      · rw [hs, hc]
        refine ⟨by intro h; simp [List.countP_cons, Event.isWriteFor] at h, fun _ => ?_⟩
        exact hl
      · rw [hs, hc]
        exact ⟨by intro h; simp at h, fun _ => hl⟩
    · have hctl : controlPhase r env m.topic s = (s, []) := by
        rcases controlPhase_spec r env m.topic s with ⟨hc, _, _⟩ | ⟨_, _, hc⟩ |
          ⟨_, _, hc⟩ | ⟨_, _, hc⟩ | ⟨_, _, hc⟩
        · exact hc
        · exfalso
          have hmem : Event.openContainer (r ++ "/" ++ generate_filename env) ∈
              (stepBody r env m s).2 := by
            rw [hs, hc]
            simp
          have := hno _ hmem
          simp [Event.isOpen] at this
        · exact hc
        · exfalso
          rw [hc] at hw2
          simp at hw2
        · exact hc
      rw [hs, hctl]
      dsimp only
      simp only [List.nil_append]
      rcases processPhase_spec env m s with ⟨h1, h2⟩ |
        ⟨hl', enc, d, w, hp⟩ | ⟨ch0, fl, hl', hp⟩ |
        ⟨hl', enc, d, sid, cid, menc, fl, hp⟩ | ⟨hl', enc, d, sid, cid, menc, w, hp⟩
      · rcases h2 with h2 | ⟨w, h2⟩ | ⟨w, h2⟩ <;> rw [h1, h2] <;>
          exact ⟨by intro h; simp [List.countP_cons, Event.isWriteFor] at h, fun _ => hl⟩
      · by_cases ht : t = m.topic
        · subst ht
          rw [hl'] at hl
          simp at hl
        · rw [hp]
          exact ⟨by intro h; simp [List.countP_cons, Event.isWriteFor] at h, fun _ => hl⟩
      · by_cases ht : t = m.topic
        · subst ht
          have hch : ch0 = ch := by
            rw [hl'] at hl
            exact Option.some.inj hl
          subst hch
          rw [hp]
          refine ⟨fun _ => ?_, fun h => ?_⟩
          · exact lookup_insertCh_self s.mcap.channel m.topic _
          · exfalso
            cases fl <;> simp [List.countP_cons, Event.isWriteFor] at h
        · rw [hp]
          refine ⟨fun h => ?_, fun _ => ?_⟩
          · exfalso
            cases fl <;>
              simp [List.countP_cons, Event.isWriteFor, beq_iff_eq, Ne.symm ht] at h
          · exact (lookup_insertCh_ne s.mcap.channel m.topic t _ ht).trans hl
      · by_cases ht : t = m.topic
        · subst ht
          rw [hl'] at hl
          simp at hl
        · rw [hp]
          refine ⟨fun h => ?_, fun _ => ?_⟩
          · exfalso
            cases fl <;>
              simp [List.countP_cons, Event.isWriteFor, beq_iff_eq, Ne.symm ht] at h
          · exact (lookup_insertCh_ne s.mcap.channel m.topic t _ ht).trans hl
      · by_cases ht : t = m.topic
        · subst ht
          rw [hl'] at hl
          simp at hl
        · rw [hp]
          refine ⟨fun h => ?_, fun _ => ?_⟩
          · exfalso
            simp [List.countP_cons, Event.isWriteFor, beq_iff_eq, Ne.symm ht] at h
          · exact (lookup_insertCh_ne s.mcap.channel m.topic t _ ht).trans hl

/-- A state with an open writer and `sampleT`'s topic already registered. -/
def regState : ServiceState where
  mcap := { writer := some (), channel := [(sampleT.topic, Channel.mk 7 1)] }
  lastFlush := 0

/-- The schema registration emitted by the one-step arming run. -/
def aSEv : Event :=
  Event.addSchema "mavlink.1.1.HEARTBEAT.base_mode" "jsonschema"
    (Value.serialize (create_schema (Value.obj [("bits", Value.num (JNum.int 128))])))

/-- The channel registration emitted by the one-step arming run. -/
def aCEv : Event := Event.addChannel 3 sampleCtl.topic "json"

/-- The first append emitted by the one-step arming run. -/
def w0Ev : Event := Event.writeMessage sampleCtl.topic 7 0 5 5 [1, 2]

/-- C1 witness: the four conjuncts at concrete inputs — the one-step
arming run's in-container events register at most one channel; a cache
miss registers iff schema and channel registration both happen once; a
cache hit registers nothing; and the step result ignores the decode,
parse and filesystem oracles on a cache hit off the control topic. -/
theorem C1_channel_registered_once_witness :
    [aSEv, aCEv, w0Ev].countP (Event.isAddChannelFor sampleCtl.topic) ≤ 1
    ∧ ((List.lookup sampleT.topic
          (stepBody "/rec" envObj sampleT armedState).1.mcap.channel).isSome = true ↔
        ((stepBody "/rec" envObj sampleT armedState).2.countP Event.isAddSchemaEv = 1
          ∧ (stepBody "/rec" envObj sampleT armedState).2.countP
              (Event.isAddChannelFor sampleT.topic) = 1))
    ∧ ((stepBody "/rec" envObj sampleT regState).2.countP Event.isAddSchemaEv = 0
        ∧ (stepBody "/rec" envObj sampleT regState).2.countP
            (Event.isAddChannelFor sampleT.topic) = 0)
    ∧ stepBody "/rec" ({ envObj with decoded := none, parsed := none, fs := fun _ => Except.error "e", currentDir := Except.error "e" }) sampleT regState =
        stepBody "/rec" envObj sampleT regState :=
  ⟨C1_channel_registered_once.1 "/rec" 0 [(envArm, sampleCtl)] sampleCtl.topic
      [Event.openContainer "/rec/recorder_TS.mcap"] [aSEv, aCEv, w0Ev] [] rfl (by decide),
   C1_channel_registered_once.2.1 "/rec" envObj sampleT armedState rfl,
   C1_channel_registered_once.2.2.1 "/rec" envObj sampleT regState rfl rfl,
   C1_channel_registered_once.2.2.2 "/rec" envObj sampleT regState none none
      (fun _ => Except.error "e") (Except.error "e") rfl rfl rfl⟩

/-- C2 witness: the amended conjuncts at concrete inputs — the one-step
arming run's in-container appends carry sequences `List.range` of their
count; a fresh channel starts at sequence 0; and a cache-hit step bumps
the cached sequence by one exactly when it appends once, leaving it
untouched when it appends nothing. -/
theorem C2_sequence_numbers_witness :
    [aSEv, aCEv, w0Ev].filterMap (Event.writeSeqFor sampleCtl.topic) =
      List.range ([aSEv, aCEv, w0Ev].countP (Event.isWriteFor sampleCtl.topic))
    ∧ (Channel.new 9).sequence = 0
    ∧ (((stepBody "/rec" envObj sampleT regState).2.countP (Event.isWriteFor sampleT.topic) = 1 →
          List.lookup sampleT.topic (stepBody "/rec" envObj sampleT regState).1.mcap.channel =
            some (Channel.mk 7 2))
        ∧ ((stepBody "/rec" envObj sampleT regState).2.countP (Event.isWriteFor sampleT.topic) = 0 →
          List.lookup sampleT.topic (stepBody "/rec" envObj sampleT regState).1.mcap.channel =
            some (Channel.mk 7 1))) :=
  ⟨C2_sequence_numbers.1 "/rec" 0 [(envArm, sampleCtl)] sampleCtl.topic "/rec/recorder_TS.mcap"
      [] [aSEv, aCEv, w0Ev] rfl (by decide) (by decide),
   C2_sequence_numbers.2.1 9,
   C2_sequence_numbers.2.2 "/rec" envObj sampleT regState sampleT.topic (Channel.mk 7 1)
      rfl (by decide)⟩

/-- The armed steady state after `j` appends on the control topic's
channel: writer open, one cached channel whose `u32` counter wrapped
`j` times around 2^32. -/
def stB (j : Nat) : ServiceState where
  mcap := { writer := some (),
            channel := [(sampleCtl.topic, Channel.mk 7 (j % 4294967296))] }
  lastFlush := 0

theorem stB_step (j : Nat) :
    stepBody "/rec" envArm sampleCtl (stB j) =
      (stB (j + 1), [Event.writeMessage sampleCtl.topic 7 (j % 4294967296) 5 5 [1, 2]]) := by
  simp only [stB]
  rw [← mod_add_one]
  rfl

theorem runService_cons (r : String) (env : Env) (m : Sample)
    (rest : List (Env × Sample)) (s : ServiceState) :
    runService r ((env, m) :: rest) s =
      ((runService r rest (stepBody r env m s).1).1,
       (stepBody r env m s).2 ++ (runService r rest (stepBody r env m s).1).2) := rfl

theorem stB_run (k : Nat) : ∀ j,
    runService "/rec" (List.replicate k (envArm, sampleCtl)) (stB j) =
      (stB (j + k),
       (List.range' j k).map
         (fun i => Event.writeMessage sampleCtl.topic 7 (i % 4294967296) 5 5 [1, 2])) := by
  induction k with
  | zero =>
    intro j
    rfl
  | succ k ih =>
    intro j
    rw [List.replicate_succ]
    simp only [runService]
    rw [stB_step j]
    dsimp only
    rw [ih (j + 1)]
    dsimp only
    simp only [List.singleton_append]
    rw [List.range'_succ, List.map_cons]
    rw [show j + 1 + k = j + (k + 1) from by omega]

/-- C2 counterexample: a container that receives 2^32 + 1 appends on one
channel.  The `u32` sequence counter wraps, so the appended sequence
numbers are 0, 1, …, 2^32 - 1, 0 — not the strictly increasing
0, 1, 2, … that the claim asserts for every channel of an open
container. -/
theorem C2_counterexample :
    ∃ mid : List Event,
      (runService "/rec" ((envArm, sampleCtl) :: List.replicate 4294967296 (envArm, sampleCtl))
          (startState 0)).2 = Event.openContainer "/rec/recorder_TS.mcap" :: mid
      ∧ (∀ e ∈ mid, e.isOpen = false)
      ∧ mid.countP (Event.isWriteFor sampleCtl.topic) = 4294967297
      ∧ mid.filterMap (Event.writeSeqFor sampleCtl.topic) ≠ List.range 4294967297 := by
  refine ⟨[aSEv, aCEv, w0Ev] ++ (List.range' 1 4294967296).map
      (fun i => Event.writeMessage sampleCtl.topic 7 (i % 4294967296) 5 5 [1, 2]),
    ?_, ?_, ?_, ?_⟩
  · have h1 : stepBody "/rec" envArm sampleCtl (startState 0) =
        (stB 1, [Event.openContainer "/rec/recorder_TS.mcap", aSEv, aCEv, w0Ev]) := rfl
    rw [runService_cons]
    rw [h1]
    dsimp only
    rw [stB_run 4294967296 1]
    dsimp only
    rw [List.cons_append]
  · intro e he
    rcases List.mem_append.mp he with h | h
    · simp only [List.mem_cons, List.not_mem_nil, or_false] at h
      rcases h with rfl | rfl | rfl <;> rfl
    · obtain ⟨i, _, rfl⟩ := List.mem_map.mp h
      rfl
  · rw [List.countP_append]
    have h3 : List.countP (Event.isWriteFor sampleCtl.topic) [aSEv, aCEv, w0Ev] = 1 := rfl
    have h4 : ∀ l : List Nat,
        List.countP (Event.isWriteFor sampleCtl.topic)
          (l.map (fun i => Event.writeMessage sampleCtl.topic 7 (i % 4294967296) 5 5 [1, 2])) =
          l.length := by
      intro l
      induction l with
      | nil => rfl
      | cons a l ih => simp [List.countP_cons, Event.isWriteFor, ih]
    rw [h3, h4, List.length_range']
  · intro heq
    have h5 : ∀ l : List Nat,
        (l.map (fun i => Event.writeMessage sampleCtl.topic 7 (i % 4294967296) 5 5 [1, 2])).filterMap
          (Event.writeSeqFor sampleCtl.topic) = l.map (fun i => i % 4294967296) := by
      intro l
      induction l with
      | nil => rfl
      | cons a l ih => simp [List.filterMap_cons, Event.writeSeqFor, ih]
    rw [List.filterMap_append, h5] at heq
    have hfm3 : List.filterMap (Event.writeSeqFor sampleCtl.topic) [aSEv, aCEv, w0Ev] = [0] := rfl
    rw [hfm3] at heq
    have hmem : (4294967296 : Nat) ∈ List.range 4294967297 := by
      rw [List.mem_range]
      omega
    rw [← heq] at hmem
    rcases List.mem_append.mp hmem with h | h
    · simp only [List.mem_singleton] at h
      omega
    · obtain ⟨i, _, hie⟩ := List.mem_map.mp h
      have hlt : i % 4294967296 < 4294967296 := Nat.mod_lt i (by omega)
      omega

end Recorder
